import Mathlib

/-!
Verification of the go-tc traffic-control attribute codec (netem qdisc and
u32 filter modules) against its natural-language specification.

Buffers are byte lists (each entry a value below 256), machine integers are
naturals carrying the unsigned bit pattern of the corresponding Go type;
signed kernel fields (int32/int64) are represented by their two's-complement
bit pattern, which is what the wire carries.  Native byte order is
little-endian.  Fallible operations return Option or pair the result with an
optional error string, mirroring Go's (value, error) returns; functions that
mutate an out-parameter in Go take the initial record and return the updated
record together with the optional error.
-/

/-! ## Byte-level primitives -/

abbrev Bytes := List Nat

/-- Little-endian encoding of a 16-bit value. -/
def enc16 (n : Nat) : Bytes := [n % 256, n / 256 % 256]

/-- Little-endian encoding of a 32-bit value. -/
def enc32 (n : Nat) : Bytes :=
  [n % 256, n / 256 % 256, n / 65536 % 256, n / 16777216 % 256]

/-- Little-endian encoding of a 64-bit value. -/
def enc64 (n : Nat) : Bytes := enc32 (n % 4294967296) ++ enc32 (n / 4294967296)

/-- Little-endian 16-bit read at offset i (out-of-range bytes read as 0). -/
def decU16 (b : Bytes) (i : Nat) : Nat := b.getD i 0 + 256 * b.getD (i + 1) 0

/-- Little-endian 32-bit read at offset i. -/
def decU32 (b : Bytes) (i : Nat) : Nat :=
  b.getD i 0 + 256 * b.getD (i + 1) 0 + 65536 * b.getD (i + 2) 0 +
    16777216 * b.getD (i + 3) 0

/-- Little-endian 64-bit read at offset i. -/
def decU64 (b : Bytes) (i : Nat) : Nat := decU32 b i + 4294967296 * decU32 b (i + 4)

/-- Number of zero bytes needed to pad a payload of length n to the next
4-byte boundary (netlink TLV alignment). -/
def padLen (n : Nat) : Nat := (4 - n % 4) % 4

/-! ## Multi-error accumulator

Modelled from the spec: the stateful accumulator of section 4.7 collects
sub-errors across independent steps, is non-absent iff at least one
sub-error occurred, and formats as the concatenation of the messages.
The Go helper concatError is not among the shown sources. -/

def concatError (a b : Option String) : Option String :=
  match a, b with
  | none, b => b
  | some x, none => some x
  | some x, some y => some (x ++ "\n" ++ y)

/-! ## TLV attribute stream

Modelled from the spec: the transport collaborator contract of section 6
(decode a TLV stream into ordered (type code, raw bytes) pairs honoring
kernel 4-byte alignment) and the TLV attribute encoder of section 4.2
(records are length:16, type:16, payload, zero-padded to a 4-byte boundary
with pad bytes not counted in the length). -/

structure Attr where
  typ : Nat
  payload : Bytes
deriving DecidableEq, Repr

def encodeAttr (a : Attr) : Bytes :=
  enc16 (4 + a.payload.length) ++ enc16 a.typ ++ a.payload ++
    List.replicate (padLen a.payload.length) 0

def encodeAttrs : List Attr → Bytes
  | [] => []
  | a :: rest => encodeAttr a ++ encodeAttrs rest

/-- Streaming TLV decode: returns the list of records parsed before any
framing problem, together with the framing error if one occurred.  The fuel
argument bounds the recursion; every step consumes at least four bytes, so
fuel equal to the buffer length is always sufficient. -/
def decodeAttrsP : Nat → Bytes → List Attr × Option String
  | _, [] => ([], none)
  | 0, _ :: _ => ([], some "netlink: invalid attribute")
  | fuel + 1, b0 :: b1 :: b2 :: b3 :: rest =>
    let len := b0 + 256 * b1
    if len < 4 then ([], some "netlink: invalid attribute")
    else if rest.length + 4 < len then ([], some "netlink: invalid attribute")
    else
      let p := decodeAttrsP fuel (rest.drop (len - 4 + padLen len))
      -- the two high bits of the type carry netlink flags and are masked off
      (⟨(b2 + 256 * b3) % 16384, rest.take (len - 4)⟩ :: p.1, p.2)
  | _ + 1, _ => ([], some "netlink: invalid attribute")

def decodeAttrs (data : Bytes) : List Attr × Option String :=
  decodeAttrsP data.length data

/-! ## Typed attribute options (the tcOption list fed to marshalAttributes) -/

inductive tcValue
  | vtBytes (b : Bytes)
  | vtUint8 (n : Nat)
  | vtUint32 (n : Nat)
  | vtUint64 (n : Nat)
  | vtInt64 (n : Nat)
  | vtString (s : Bytes)
deriving DecidableEq, Repr

structure tcOption where
  Data : tcValue
  typ : Nat
deriving DecidableEq, Repr

def renderValue : tcValue → Bytes
  | .vtBytes b => b
  | .vtUint8 n => [n % 256]
  | .vtUint32 n => enc32 n
  | .vtUint64 n => enc64 n
  | .vtInt64 n => enc64 n
  | .vtString s => s ++ [0]

def toAttr (o : tcOption) : Attr := ⟨o.typ, renderValue o.Data⟩

/-- Modelled from the spec: the TLV attribute encoder of section 4.2. -/
def marshalAttributes (opts : List tcOption) : Bytes :=
  encodeAttrs (opts.map toAttr)

/-! ## Fixed-layout struct codec

Modelled from the spec (section 4.1), with the prefix semantics of Go's
binary.Read that the shown call sites require: unmarshalNetem hands the
whole remaining buffer (q_netem.go line 90) to the fixed-record decoder, so
the decoder reads the record from the buffer's prefix and fails exactly when
the buffer is shorter than the record's packed size; marshal always
succeeds and emits exactly the packed size, fields in declared order,
native byte order. -/

class TcStruct (α : Type) where
  marshalStruct : α → Bytes
  unmarshalStruct : Bytes → Option α

export TcStruct (marshalStruct unmarshalStruct)

/-! ## Netem data model (q_netem.go) -/

def tcaNetemUnspec : Nat := 0
def tcaNetemCorr : Nat := 1
def tcaNetemDelayDist : Nat := 2
def tcaNetemReorder : Nat := 3
def tcaNetemCorrupt : Nat := 4
def tcaNetemLoss : Nat := 5
def tcaNetemRate : Nat := 6
def tcaNetemEcn : Nat := 7
def tcaNetemRate64 : Nat := 8
def tcaNetemPad : Nat := 9
def tcaNetemLatency64 : Nat := 10
def tcaNetemJitter64 : Nat := 11
def tcaNetemSlot : Nat := 12
def tcaNetemSlotDist : Nat := 13

structure NetemQopt where
  Latency : Nat
  Limit : Nat
  Loss : Nat
  Gap : Nat
  Duplicate : Nat
  Jitter : Nat
deriving DecidableEq, Repr

structure NetemCorr where
  Delay : Nat
  Loss : Nat
  Dup : Nat
deriving DecidableEq, Repr

structure NetemReorder where
  Probability : Nat
  Correlation : Nat
deriving DecidableEq, Repr

structure NetemCorrupt where
  Probability : Nat
  Correlation : Nat
deriving DecidableEq, Repr

structure NetemRate where
  Rate : Nat
  PacketOverhead : Nat
  CellSize : Nat
  CellOverhead : Nat
deriving DecidableEq, Repr

structure NetemSlot where
  MinDelay : Nat
  MaxDelay : Nat
  MaxPackets : Nat
  MaxBytes : Nat
  DistDelay : Nat
  DistJitter : Nat
deriving DecidableEq, Repr

structure Netem where
  Qopt : NetemQopt
  Corr : Option NetemCorr
  Reorder : Option NetemReorder
  Corrupt : Option NetemCorrupt
  Rate : Option NetemRate
  Ecn : Option Nat
  Rate64 : Option Nat
  Latency64 : Option Nat
  Jitter64 : Option Nat
  Slot : Option NetemSlot
deriving DecidableEq, Repr

instance instTcNetemQopt : TcStruct NetemQopt where
  marshalStruct q :=
    enc32 q.Latency ++ enc32 q.Limit ++ enc32 q.Loss ++ enc32 q.Gap ++
      enc32 q.Duplicate ++ enc32 q.Jitter
  unmarshalStruct b :=
    if 24 ≤ b.length then
      some ⟨decU32 b 0, decU32 b 4, decU32 b 8, decU32 b 12, decU32 b 16,
        decU32 b 20⟩
    else none

instance instTcNetemCorr : TcStruct NetemCorr where
  marshalStruct v := enc32 v.Delay ++ enc32 v.Loss ++ enc32 v.Dup
  unmarshalStruct b :=
    if 12 ≤ b.length then some ⟨decU32 b 0, decU32 b 4, decU32 b 8⟩ else none

instance instTcNetemReorder : TcStruct NetemReorder where
  marshalStruct v := enc32 v.Probability ++ enc32 v.Correlation
  unmarshalStruct b :=
    if 8 ≤ b.length then some ⟨decU32 b 0, decU32 b 4⟩ else none

instance instTcNetemCorrupt : TcStruct NetemCorrupt where
  marshalStruct v := enc32 v.Probability ++ enc32 v.Correlation
  unmarshalStruct b :=
    if 8 ≤ b.length then some ⟨decU32 b 0, decU32 b 4⟩ else none

instance instTcNetemRate : TcStruct NetemRate where
  marshalStruct v :=
    enc32 v.Rate ++ enc32 v.PacketOverhead ++ enc32 v.CellSize ++
      enc32 v.CellOverhead
  unmarshalStruct b :=
    if 16 ≤ b.length then
      some ⟨decU32 b 0, decU32 b 4, decU32 b 8, decU32 b 12⟩
    else none

instance instTcNetemSlot : TcStruct NetemSlot where
  marshalStruct v :=
    enc64 v.MinDelay ++ enc64 v.MaxDelay ++ enc32 v.MaxPackets ++
      enc32 v.MaxBytes ++ enc64 v.DistDelay ++ enc64 v.DistJitter
  unmarshalStruct b :=
    if 40 ≤ b.length then
      some ⟨decU64 b 0, decU64 b 8, decU32 b 16, decU32 b 20, decU64 b 24,
        decU64 b 32⟩
    else none

/-- Modelled from the spec: the scalar extraction used for 64-bit signed
attributes (unmarshalNetlinkAttribute in the source, not among the shown
files); binary.Read prefix semantics over the attribute payload. -/
def unmarshalInt64Attr (b : Bytes) : Option Nat :=
  if 8 ≤ b.length then some (decU64 b 0) else none

def errNotUint32 : String := "netlink: attribute is not a uint32"
def errNotUint64 : String := "netlink: attribute is not a uint64"
def errUnexpectedEOF : String := "unexpected EOF"

def netemUnknownMsg (t : Nat) (b : Bytes) : String :=
  "unmarshalNetem() " ++ toString t ++ " " ++ toString b

/-- How an attribute-decoding loop ended: the whole stream was consumed, a
scalar helper of the attribute decoder recorded an error and iteration
stopped (surfaced only if the caller consults the decoder's error), or the
loop body returned an error explicitly. -/
inductive LoopEnd
  | finished
  | sticky (e : String)
  | returned (e : String)
deriving DecidableEq, Repr

/-- Outcome of one iteration of an attribute-decoding loop: continue with
the updated record, or stop with the updated record and a LoopEnd. -/
inductive SwitchRes (σ : Type)
  | cont (s : σ)
  | stop (s : σ) (e : LoopEnd)
deriving DecidableEq, Repr

/-- The switch body of unmarshalNetem's loop (q_netem.go lines 102-148).
For the fixed sub-blocks (Corr, Reorder, Corrupt, Rate, Slot) and the
64-bit scalars (Latency64, Jitter64) the source passes the sub-decode error
to concatError but discards the result, so the error never reaches
multiError and the pointer field is set to the freshly allocated (zero on
failure) struct regardless. -/
def netemSwitch (a : Attr) (info : Netem) : SwitchRes Netem :=
  if a.typ = tcaNetemCorr then
    .cont { info with Corr := some ((unmarshalStruct a.payload : Option NetemCorr).getD ⟨0, 0, 0⟩) }
  else if a.typ = tcaNetemReorder then
    .cont { info with Reorder := some ((unmarshalStruct a.payload : Option NetemReorder).getD ⟨0, 0⟩) }
  else if a.typ = tcaNetemCorrupt then
    .cont { info with Corrupt := some ((unmarshalStruct a.payload : Option NetemCorrupt).getD ⟨0, 0⟩) }
  else if a.typ = tcaNetemRate then
    .cont { info with Rate := some ((unmarshalStruct a.payload : Option NetemRate).getD ⟨0, 0, 0, 0⟩) }
  else if a.typ = tcaNetemEcn then
    if a.payload.length = 4 then
      .cont { info with Ecn := some (decU32 a.payload 0) }
    else .stop { info with Ecn := some 0 } (.sticky errNotUint32)
  else if a.typ = tcaNetemRate64 then
    if a.payload.length = 8 then
      .cont { info with Rate64 := some (decU64 a.payload 0) }
    else .stop { info with Rate64 := some 0 } (.sticky errNotUint64)
  else if a.typ = tcaNetemLatency64 then
    .cont { info with Latency64 := some ((unmarshalInt64Attr a.payload).getD 0) }
  else if a.typ = tcaNetemJitter64 then
    .cont { info with Jitter64 := some ((unmarshalInt64Attr a.payload).getD 0) }
  else if a.typ = tcaNetemSlot then
    .cont { info with Slot := some ((unmarshalStruct a.payload : Option NetemSlot).getD ⟨0, 0, 0, 0, 0, 0⟩) }
  else if a.typ = tcaNetemPad then
    -- padding does not contain data, the source just skips it
    .cont info
  else .stop info (.returned (netemUnknownMsg a.typ a.payload))

/-- The attribute loop of unmarshalNetem (q_netem.go lines 101-149). -/
def netemAttrs : List Attr → Netem → Netem × LoopEnd
  | [], info => (info, .finished)
  | a :: rest, info =>
    match netemSwitch a info with
    | .cont i => netemAttrs rest i
    | .stop i e => (i, e)

/-- unmarshalNetem (q_netem.go lines 88-151): decode the mandatory NetemQopt
from the buffer prefix, then walk the TLV attributes after byte 24.  The
local multiError is never reassigned because the loop discards concatError's
results, so only the streaming decoder's own error or an unknown-type error
can surface. -/
def unmarshalNetem (data : Bytes) (info : Netem) : Netem × Option String :=
  match (unmarshalStruct data : Option NetemQopt) with
  | none => (info, some errUnexpectedEOF)
  | some qopt =>
    let p := decodeAttrs (data.drop 24)
    let multiError : Option String := none
    match netemAttrs p.1 { info with Qopt := qopt } with
    | (i, .finished) => (i, concatError multiError p.2)
    | (i, .sticky e) => (i, concatError multiError (some e))
    | (i, .returned e) => (i, some e)

/-- marshalNetem (q_netem.go lines 154-209): emit each present optional
block in schema order after the mandatory Qopt record.  The multiError
accumulator stays nil (the source discards every concatError result) and
marshalStruct on fixed records cannot fail, so the only error is a nil
payload reference. -/
def marshalNetem : Option Netem → Except String Bytes
  | none => .error "Netem: no argument"
  | some info =>
    let options : List tcOption :=
      (match info.Corr with
        | none => []
        | some v => [⟨.vtBytes (marshalStruct v), tcaNetemCorr⟩]) ++
      (match info.Reorder with
        | none => []
        | some v => [⟨.vtBytes (marshalStruct v), tcaNetemReorder⟩]) ++
      (match info.Corrupt with
        | none => []
        | some v => [⟨.vtBytes (marshalStruct v), tcaNetemCorrupt⟩]) ++
      (match info.Rate with
        | none => []
        | some v => [⟨.vtBytes (marshalStruct v), tcaNetemRate⟩]) ++
      (match info.Ecn with
        | none => []
        | some v => [⟨.vtUint32 v, tcaNetemEcn⟩]) ++
      (match info.Rate64 with
        | none => []
        | some v => [⟨.vtUint64 v, tcaNetemRate64⟩]) ++
      (match info.Latency64 with
        | none => []
        | some v => [⟨.vtInt64 v, tcaNetemLatency64⟩]) ++
      (match info.Jitter64 with
        | none => []
        | some v => [⟨.vtInt64 v, tcaNetemJitter64⟩]) ++
      (match info.Slot with
        | none => []
        | some v => [⟨.vtBytes (marshalStruct v), tcaNetemSlot⟩])
    .ok (marshalStruct info.Qopt ++ marshalAttributes options)

def qoptZero : NetemQopt := ⟨0, 0, 0, 0, 0, 0⟩

def netemZero : Netem :=
  ⟨qoptZero, none, none, none, none, none, none, none, none, none⟩

/-! ## U32 data model (f_u32.go) -/

def tcaU32Unspec : Nat := 0
def tcaU32ClassID : Nat := 1
def tcaU32Hash : Nat := 2
def tcaU32Link : Nat := 3
def tcaU32Divisor : Nat := 4
def tcaU32Sel : Nat := 5
def tcaU32Police : Nat := 6
def tcaU32Act : Nat := 7
def tcaU32InDev : Nat := 8
def tcaU32Pcnt : Nat := 9
def tcaU32Mark : Nat := 10
def tcaU32Flags : Nat := 11
def tcaU32Pad : Nat := 12

structure U32Key where
  Mask : Nat
  Val : Nat
  Off : Nat
  OffMask : Nat
deriving DecidableEq, Repr

structure U32Sel where
  Flags : Nat
  Offshift : Nat
  NKeys : Nat
  OffMask : Nat
  Off : Nat
  Offoff : Nat
  Hoff : Nat
  Hmask : Nat
  Keys : List U32Key
deriving DecidableEq, Repr

structure U32Mark where
  Val : Nat
  Mask : Nat
  Success : Nat
deriving DecidableEq, Repr

/-- Modelled from the spec: the policing sub-schema is delegated to its own
marshal/unmarshal (section 4.5) and its definition is not among the shown
sources; its payload is kept as the raw nested TLV bytes. -/
structure Police where
  raw : Bytes
deriving DecidableEq, Repr

/-- Modelled from the spec: the actions sub-schema is likewise delegated and
not among the shown sources; its payload is kept as the raw nested bytes. -/
structure Actions where
  raw : Bytes
deriving DecidableEq, Repr

structure U32 where
  ClassID : Nat
  Hash : Nat
  Link : Nat
  Divisor : Nat
  Sel : Option U32Sel
  InDev : Bytes
  Pcnt : Nat
  Mark : Option U32Mark
  Flags : Nat
  Police : Option Police
  Actions : Option Actions
deriving DecidableEq, Repr

instance instTcU32Key : TcStruct U32Key where
  marshalStruct k := enc32 k.Mask ++ enc32 k.Val ++ enc32 k.Off ++ enc32 k.OffMask
  unmarshalStruct b :=
    if 16 ≤ b.length then
      some ⟨decU32 b 0, decU32 b 4, decU32 b 8, decU32 b 12⟩
    else none

instance instTcU32Mark : TcStruct U32Mark where
  marshalStruct m := enc32 m.Val ++ enc32 m.Mask ++ enc32 m.Success
  unmarshalStruct b :=
    if 12 ≤ b.length then some ⟨decU32 b 0, decU32 b 4, decU32 b 8⟩ else none

def marshalPolice (p : Police) : Bytes := p.raw

def marshalActions (a : Actions) : Bytes := a.raw

def selZero : U32Sel := ⟨0, 0, 0, 0, 0, 0, 0, 0, []⟩

def u32Zero : U32 := ⟨0, 0, 0, 0, none, [], 0, none, 0, none, none⟩

def marshalU32Keys : List U32Key → Bytes
  | [] => []
  | k :: rest => marshalStruct k ++ marshalU32Keys rest

/-- validateU32SelOptions (f_u32.go lines 161-179): binary-write the fixed
15-byte selector header followed by one 16-byte record per entry of Keys.
binary.Write on fixed-width fields cannot fail, so the Go error path is
dead and the encoding is total. -/
def validateU32SelOptions (info : U32Sel) : Bytes :=
  [info.Flags % 256, info.Offshift % 256, info.NKeys % 256] ++
    enc16 info.OffMask ++ enc16 info.Off ++ enc16 info.Offoff ++
    enc16 info.Hoff ++ enc32 info.Hmask ++ marshalU32Keys info.Keys

/-- The key-reading loop of extractU32Sel: n keys remain, i keys already
read; each key is decoded from the 16-byte slice at offset 15 + 16*i and
appended to info.Keys. -/
def extractU32Keys : Nat → Nat → Bytes → U32Sel → U32Sel × Option String
  | 0, _, _, info => (info, none)
  | n + 1, i, data, info =>
    match (unmarshalStruct ((data.drop (15 + i * 16)).take 16) : Option U32Key) with
    | none => (info, some errUnexpectedEOF)
    | some key => extractU32Keys n (i + 1) data { info with Keys := info.Keys ++ [key] }

/-- extractU32Sel (f_u32.go lines 181-204): fail if fewer than 15 bytes are
available for the header; otherwise decode the header fields, then fail if
fewer than NKeys*16+15 bytes are available; otherwise decode NKeys keys. -/
def extractU32Sel (data : Bytes) (info : U32Sel) : U32Sel × Option String :=
  match data with
  | b0 :: b1 :: b2 :: b3 :: b4 :: b5 :: b6 :: b7 :: b8 :: b9 :: b10 :: b11 ::
      b12 :: b13 :: b14 :: _ =>
    let info : U32Sel :=
      { info with
        Flags := b0, Offshift := b1, NKeys := b2
        OffMask := b3 + 256 * b4
        Off := b5 + 256 * b6
        Offoff := b7 + 256 * b8
        Hoff := b9 + 256 * b10
        Hmask := b11 + 256 * b12 + 65536 * b13 + 16777216 * b14 }
    if data.length < b2 * 16 + 15 then
      (info, some "not enough bytes for U32Keys")
    else extractU32Keys b2 0 data info
  | _ => (info, some "not enough bytes for U32Sel")

def u32UnknownMsg (t : Nat) (b : Bytes) : String :=
  "unmarshalU32() " ++ toString t ++ " " ++ toString b

/-- Removes a single trailing NUL byte, as the attribute decoder's string
accessor does (modelled from the transport collaborator). -/
def adString (b : Bytes) : Bytes :=
  if b.getLast? = some 0 then b.dropLast else b

/-- The switch body of unmarshalU32's loop (f_u32.go lines 100-143).  The
sub-block cases (Sel, Mark) return their error immediately, so decoding
stops at the first such failure; a scalar accessor mismatch stops iteration
with an error that unmarshalU32 never reads (it does not consult the
decoder's error), hence .sticky here. -/
def u32Switch (a : Attr) (info : U32) : SwitchRes U32 :=
  if a.typ = tcaU32ClassID then
    if a.payload.length = 4 then
      .cont { info with ClassID := decU32 a.payload 0 }
    else .stop { info with ClassID := 0 } (.sticky errNotUint32)
  else if a.typ = tcaU32Hash then
    if a.payload.length = 4 then
      .cont { info with Hash := decU32 a.payload 0 }
    else .stop { info with Hash := 0 } (.sticky errNotUint32)
  else if a.typ = tcaU32Link then
    if a.payload.length = 4 then
      .cont { info with Link := decU32 a.payload 0 }
    else .stop { info with Link := 0 } (.sticky errNotUint32)
  else if a.typ = tcaU32Divisor then
    if a.payload.length = 4 then
      .cont { info with Divisor := decU32 a.payload 0 }
    else .stop { info with Divisor := 0 } (.sticky errNotUint32)
  else if a.typ = tcaU32Sel then
    match extractU32Sel a.payload selZero with
    | (_, some e) => .stop info (.returned e)
    | (s, none) => .cont { info with Sel := some s }
  else if a.typ = tcaU32Police then
    .cont { info with Police := some ⟨a.payload⟩ }
  else if a.typ = tcaU32InDev then
    .cont { info with InDev := adString a.payload }
  else if a.typ = tcaU32Pcnt then
    if a.payload.length = 8 then
      .cont { info with Pcnt := decU64 a.payload 0 }
    else .stop { info with Pcnt := 0 } (.sticky errNotUint64)
  else if a.typ = tcaU32Mark then
    match (unmarshalStruct a.payload : Option U32Mark) with
    | none => .stop info (.returned errUnexpectedEOF)
    | some m => .cont { info with Mark := some m }
  else if a.typ = tcaU32Flags then
    if a.payload.length = 4 then
      .cont { info with Flags := decU32 a.payload 0 }
    else .stop { info with Flags := 0 } (.sticky errNotUint32)
  else if a.typ = tcaU32Act then
    .cont { info with Actions := some ⟨a.payload⟩ }
  else if a.typ = tcaU32Pad then
    -- padding does not contain data, the source just skips it
    .cont info
  else .stop info (.returned (u32UnknownMsg a.typ a.payload))

/-- The attribute loop of unmarshalU32 (f_u32.go lines 99-144). -/
def u32Attrs : List Attr → U32 → U32 × LoopEnd
  | [], info => (info, .finished)
  | a :: rest, info =>
    match u32Switch a info with
    | .cont i => u32Attrs rest i
    | .stop i e => (i, e)

/-- unmarshalU32 (f_u32.go lines 93-146): pure TLV walk, no fixed prefix.
The function returns nil after the loop without consulting the decoder's
error, so framing errors and scalar-accessor errors are silently dropped;
only explicit in-loop returns surface. -/
def unmarshalU32 (data : Bytes) (info : U32) : U32 × Option String :=
  let p := decodeAttrs data
  match u32Attrs p.1 info with
  | (i, .finished) => (i, none)
  | (i, .sticky _) => (i, none)
  | (i, .returned e) => (i, some e)

/-- marshalU32 (f_u32.go lines 43-90): emit Sel, Mark, ClassID (when
nonzero), Police, Flags (when nonzero), Actions, in that order; Hash, Link,
Divisor, InDev and Pcnt are never emitted. -/
def marshalU32 : Option U32 → Except String Bytes
  | none => .error "U32: no argument"
  | some info =>
    let options : List tcOption :=
      (match info.Sel with
        | none => []
        | some s => [⟨.vtBytes (validateU32SelOptions s), tcaU32Sel⟩]) ++
      (match info.Mark with
        | none => []
        | some m => [⟨.vtBytes (marshalStruct m), tcaU32Mark⟩]) ++
      (if info.ClassID = 0 then []
        else [⟨.vtUint32 info.ClassID, tcaU32ClassID⟩]) ++
      (match info.Police with
        | none => []
        | some p => [⟨.vtBytes (marshalPolice p), tcaU32Police⟩]) ++
      (if info.Flags = 0 then [] else [⟨.vtUint32 info.Flags, tcaU32Flags⟩]) ++
      (match info.Actions with
        | none => []
        | some acts => [⟨.vtBytes (marshalActions acts), tcaU32Act⟩])
    .ok (marshalAttributes options)

/-! ## Message header and handle

Modelled from the spec: BuildHandle appears in the shown sources only at its
call site (qdisc_test.go line 46); section 3 defines the handle as the
32-bit value major shifted left by 16 bits or-ed with minor, over 16-bit
components, with pure construction and decomposition.  For 16-bit operands
the bitwise or of disjoint ranges is addition.  The message header wire
layout is section 6: family as one byte followed by three pad bytes, then
interface index, handle, parent and info as 32-bit words. -/

def BuildHandle (major minor : Nat) : Nat :=
  major % 65536 * 65536 + minor % 65536

def handleMajor (h : Nat) : Nat := h / 65536 % 65536

def handleMinor (h : Nat) : Nat := h % 65536

structure Msg where
  Family : Nat
  Ifindex : Nat
  Handle : Nat
  Parent : Nat
  Info : Nat
deriving DecidableEq, Repr

instance instTcMsg : TcStruct Msg where
  marshalStruct m :=
    [m.Family % 256, 0, 0, 0] ++ enc32 m.Ifindex ++ enc32 m.Handle ++
      enc32 m.Parent ++ enc32 m.Info
  unmarshalStruct b :=
    if 20 ≤ b.length then
      some ⟨b.getD 0 0, decU32 b 4, decU32 b 8, decU32 b 12, decU32 b 16⟩
    else none

/-! ## Encoder/decoder agreement -/

lemma padLen_add4 (n : Nat) : padLen (4 + n) = padLen n := by
  unfold padLen; omega

lemma encodeAttr_length (a : Attr) :
    (encodeAttr a).length = 4 + a.payload.length + padLen a.payload.length := by
  simp [encodeAttr, enc16]; omega

lemma encodeAttrs_length_ge (l : List Attr) : l.length ≤ (encodeAttrs l).length := by
  induction l with
  | nil => simp [encodeAttrs]
  | cons a t ih =>
    simp only [encodeAttrs, List.length_append, List.length_cons, encodeAttr_length]
    omega

/-- An attribute representable on the wire: the type code fits in the 14
usable bits and the payload, together with the 4-byte header, fits the
16-bit length field. -/
def AttrEncOK (a : Attr) : Prop := a.typ < 16384 ∧ a.payload.length ≤ 65531

instance (a : Attr) : Decidable (AttrEncOK a) := by
  unfold AttrEncOK; infer_instance

lemma decodeAttrsP_encodeAttrs (l : List Attr) (hl : ∀ a ∈ l, AttrEncOK a) :
    ∀ fuel, l.length ≤ fuel → decodeAttrsP fuel (encodeAttrs l) = (l, none) := by
  induction l with
  | nil =>
    intro fuel _
    cases fuel <;> simp [encodeAttrs, decodeAttrsP]
  | cons a t ih =>
    intro fuel hf
    obtain ⟨typ, payload⟩ := a
    obtain ⟨htyp, hlen⟩ := hl ⟨typ, payload⟩ (by simp)
    simp only [Attr.typ, Attr.payload] at htyp hlen
    match fuel with
    | fuel + 1 =>
      have hcons : encodeAttrs (⟨typ, payload⟩ :: t) =
          (4 + payload.length) % 256 :: (4 + payload.length) / 256 % 256 ::
          typ % 256 :: typ / 256 % 256 ::
          (payload ++ (List.replicate (padLen payload.length) 0 ++ encodeAttrs t)) := by
        simp [encodeAttrs, encodeAttr, enc16]
      rw [hcons]
      simp only [decodeAttrsP]
      have h1 : (4 + payload.length) % 256 + 256 * ((4 + payload.length) / 256 % 256)
          = 4 + payload.length := by omega
      rw [h1]
      have h2 : ¬ (4 + payload.length < 4) := by omega
      have h3 : ¬ ((payload ++ (List.replicate (padLen payload.length) 0 ++
          encodeAttrs t)).length + 4 < 4 + payload.length) := by
        simp; omega
      simp only [h2, h3, if_false]
      have h4 : 4 + payload.length - 4 = payload.length := by omega
      rw [h4, padLen_add4]
      have htake : (payload ++ (List.replicate (padLen payload.length) 0 ++
          encodeAttrs t)).take payload.length = payload := by
        rw [List.take_append_of_le_length (by omega), List.take_length]
      have hdrop : (payload ++ (List.replicate (padLen payload.length) 0 ++
          encodeAttrs t)).drop (payload.length + padLen payload.length) = encodeAttrs t := by
        rw [← List.drop_drop, List.drop_left,
          List.drop_append_of_le_length (by simp), List.drop_replicate]
        simp
      rw [htake, hdrop]
      have htyp' : (typ % 256 + 256 * (typ / 256 % 256)) % 16384 = typ := by omega
      rw [htyp']
      rw [ih (fun b hb => hl b (by simp [hb])) fuel (by simpa using hf)]

lemma decodeAttrs_encodeAttrs (l : List Attr) (hl : ∀ a ∈ l, AttrEncOK a) :
    decodeAttrs (encodeAttrs l) = (l, none) :=
  decodeAttrsP_encodeAttrs l hl _ (encodeAttrs_length_ge l)

/-! ## Field-range predicates (each field fits its Go machine type) -/

def NetemQoptWF (q : NetemQopt) : Prop :=
  q.Latency < 4294967296 ∧ q.Limit < 4294967296 ∧ q.Loss < 4294967296 ∧
    q.Gap < 4294967296 ∧ q.Duplicate < 4294967296 ∧ q.Jitter < 4294967296

def NetemCorrWF (v : NetemCorr) : Prop :=
  v.Delay < 4294967296 ∧ v.Loss < 4294967296 ∧ v.Dup < 4294967296

def NetemReorderWF (v : NetemReorder) : Prop :=
  v.Probability < 4294967296 ∧ v.Correlation < 4294967296

def NetemCorruptWF (v : NetemCorrupt) : Prop :=
  v.Probability < 4294967296 ∧ v.Correlation < 4294967296

def NetemRateWF (v : NetemRate) : Prop :=
  v.Rate < 4294967296 ∧ v.PacketOverhead < 4294967296 ∧
    v.CellSize < 4294967296 ∧ v.CellOverhead < 4294967296

def NetemSlotWF (v : NetemSlot) : Prop :=
  v.MinDelay < 18446744073709551616 ∧ v.MaxDelay < 18446744073709551616 ∧
    v.MaxPackets < 4294967296 ∧ v.MaxBytes < 4294967296 ∧
    v.DistDelay < 18446744073709551616 ∧ v.DistJitter < 18446744073709551616

def U32KeyWF (k : U32Key) : Prop :=
  k.Mask < 4294967296 ∧ k.Val < 4294967296 ∧ k.Off < 4294967296 ∧
    k.OffMask < 4294967296

def U32MarkWF (m : U32Mark) : Prop :=
  m.Val < 4294967296 ∧ m.Mask < 4294967296 ∧ m.Success < 4294967296

/-! ## Fixed-record roundtrips -/

lemma unmarshal_marshal_qopt (q : NetemQopt) (h : NetemQoptWF q) (t : Bytes) :
    (unmarshalStruct (marshalStruct q ++ t) : Option NetemQopt) = some q := by
  obtain ⟨f1, f2, f3, f4, f5, f6⟩ := q
  simp only [NetemQoptWF] at h
  obtain ⟨h1, h2, h3, h4, h5, h6⟩ := h
  simp only [marshalStruct, unmarshalStruct, instTcNetemQopt, enc32, List.cons_append,
    List.nil_append, decU32, List.getD_cons_zero, List.getD_cons_succ, List.length_cons,
    List.length_append]
  rw [if_pos (by omega)]
  simp only [Option.some.injEq, NetemQopt.mk.injEq]
  refine ⟨by omega, by omega, by omega, by omega, by omega, by omega⟩

lemma unmarshal_marshal_corr (v : NetemCorr) (h : NetemCorrWF v) (t : Bytes) :
    (unmarshalStruct (marshalStruct v ++ t) : Option NetemCorr) = some v := by
  obtain ⟨f1, f2, f3⟩ := v
  simp only [NetemCorrWF] at h
  obtain ⟨h1, h2, h3⟩ := h
  simp only [marshalStruct, unmarshalStruct, instTcNetemCorr, enc32, List.cons_append,
    List.nil_append, decU32, List.getD_cons_zero, List.getD_cons_succ, List.length_cons,
    List.length_append]
  rw [if_pos (by omega)]
  simp only [Option.some.injEq, NetemCorr.mk.injEq]
  refine ⟨by omega, by omega, by omega⟩

lemma unmarshal_marshal_reorder (v : NetemReorder) (h : NetemReorderWF v) (t : Bytes) :
    (unmarshalStruct (marshalStruct v ++ t) : Option NetemReorder) = some v := by
  obtain ⟨f1, f2⟩ := v
  simp only [NetemReorderWF] at h
  obtain ⟨h1, h2⟩ := h
  simp only [marshalStruct, unmarshalStruct, instTcNetemReorder, enc32, List.cons_append,
    List.nil_append, decU32, List.getD_cons_zero, List.getD_cons_succ, List.length_cons,
    List.length_append]
  rw [if_pos (by omega)]
  simp only [Option.some.injEq, NetemReorder.mk.injEq]
  refine ⟨by omega, by omega⟩

lemma unmarshal_marshal_corrupt (v : NetemCorrupt) (h : NetemCorruptWF v) (t : Bytes) :
    (unmarshalStruct (marshalStruct v ++ t) : Option NetemCorrupt) = some v := by
  obtain ⟨f1, f2⟩ := v
  simp only [NetemCorruptWF] at h
  obtain ⟨h1, h2⟩ := h
  simp only [marshalStruct, unmarshalStruct, instTcNetemCorrupt, enc32, List.cons_append,
    List.nil_append, decU32, List.getD_cons_zero, List.getD_cons_succ, List.length_cons,
    List.length_append]
  rw [if_pos (by omega)]
  simp only [Option.some.injEq, NetemCorrupt.mk.injEq]
  refine ⟨by omega, by omega⟩

lemma unmarshal_marshal_rate (v : NetemRate) (h : NetemRateWF v) (t : Bytes) :
    (unmarshalStruct (marshalStruct v ++ t) : Option NetemRate) = some v := by
  obtain ⟨f1, f2, f3, f4⟩ := v
  simp only [NetemRateWF] at h
  obtain ⟨h1, h2, h3, h4⟩ := h
  simp only [marshalStruct, unmarshalStruct, instTcNetemRate, enc32, List.cons_append,
    List.nil_append, decU32, List.getD_cons_zero, List.getD_cons_succ, List.length_cons,
    List.length_append]
  rw [if_pos (by omega)]
  simp only [Option.some.injEq, NetemRate.mk.injEq]
  refine ⟨by omega, by omega, by omega, by omega⟩

lemma unmarshal_marshal_slot (v : NetemSlot) (h : NetemSlotWF v) (t : Bytes) :
    (unmarshalStruct (marshalStruct v ++ t) : Option NetemSlot) = some v := by
  obtain ⟨f1, f2, f3, f4, f5, f6⟩ := v
  simp only [NetemSlotWF] at h
  obtain ⟨h1, h2, h3, h4, h5, h6⟩ := h
  simp only [marshalStruct, unmarshalStruct, instTcNetemSlot, enc32, enc64, decU64,
    List.cons_append, List.nil_append, decU32, List.getD_cons_zero, List.getD_cons_succ,
    List.length_cons, List.length_append]
  rw [if_pos (by omega)]
  simp only [Option.some.injEq, NetemSlot.mk.injEq]
  refine ⟨by omega, by omega, by omega, by omega, by omega, by omega⟩

lemma unmarshal_marshal_key (k : U32Key) (h : U32KeyWF k) (t : Bytes) :
    (unmarshalStruct (marshalStruct k ++ t) : Option U32Key) = some k := by
  obtain ⟨f1, f2, f3, f4⟩ := k
  simp only [U32KeyWF] at h
  obtain ⟨h1, h2, h3, h4⟩ := h
  simp only [marshalStruct, unmarshalStruct, instTcU32Key, enc32, List.cons_append,
    List.nil_append, decU32, List.getD_cons_zero, List.getD_cons_succ, List.length_cons,
    List.length_append]
  rw [if_pos (by omega)]
  simp only [Option.some.injEq, U32Key.mk.injEq]
  refine ⟨by omega, by omega, by omega, by omega⟩

lemma unmarshal_marshal_mark (m : U32Mark) (h : U32MarkWF m) (t : Bytes) :
    (unmarshalStruct (marshalStruct m ++ t) : Option U32Mark) = some m := by
  obtain ⟨f1, f2, f3⟩ := m
  simp only [U32MarkWF] at h
  obtain ⟨h1, h2, h3⟩ := h
  simp only [marshalStruct, unmarshalStruct, instTcU32Mark, enc32, List.cons_append,
    List.nil_append, decU32, List.getD_cons_zero, List.getD_cons_succ, List.length_cons,
    List.length_append]
  rw [if_pos (by omega)]
  simp only [Option.some.injEq, U32Mark.mk.injEq]
  refine ⟨by omega, by omega, by omega⟩

lemma decU32_enc32 (c : Nat) (h : c < 4294967296) : decU32 (enc32 c) 0 = c := by
  simp only [enc32, decU32, List.getD_cons_zero, List.getD_cons_succ]
  omega

lemma decU64_enc64 (c : Nat) (h : c < 18446744073709551616) : decU64 (enc64 c) 0 = c := by
  simp only [enc64, enc32, decU64, decU32, List.cons_append, List.nil_append,
    List.getD_cons_zero, List.getD_cons_succ]
  omega

lemma enc32_length (n : Nat) : (enc32 n).length = 4 := by simp [enc32]

lemma enc64_length (n : Nat) : (enc64 n).length = 8 := by simp [enc64, enc32]

lemma marshal_qopt_length (q : NetemQopt) : (marshalStruct q : Bytes).length = 24 := by
  simp [marshalStruct, instTcNetemQopt, enc32]

lemma marshal_key_length (k : U32Key) : (marshalStruct k : Bytes).length = 16 := by
  simp [marshalStruct, instTcU32Key, enc32]

lemma marshalU32Keys_length (ks : List U32Key) :
    (marshalU32Keys ks).length = 16 * ks.length := by
  induction ks with
  | nil => simp [marshalU32Keys]
  | cons k rest ih => simp [marshalU32Keys, marshal_key_length, ih]; omega

/-! ## Loop lemmas -/

lemma unmarshal_marshal_qopt_mod (q : NetemQopt) (t : Bytes) :
    (unmarshalStruct (marshalStruct q ++ t) : Option NetemQopt)
      = some ⟨q.Latency % 4294967296, q.Limit % 4294967296, q.Loss % 4294967296,
          q.Gap % 4294967296, q.Duplicate % 4294967296, q.Jitter % 4294967296⟩ := by
  obtain ⟨f1, f2, f3, f4, f5, f6⟩ := q
  simp only [marshalStruct, unmarshalStruct, instTcNetemQopt, enc32, List.cons_append,
    List.nil_append, decU32, List.getD_cons_zero, List.getD_cons_succ, List.length_cons,
    List.length_append]
  rw [if_pos (by omega)]
  simp only [Option.some.injEq, NetemQopt.mk.injEq]
  refine ⟨by omega, by omega, by omega, by omega, by omega, by omega⟩

lemma drop24_qopt (q : NetemQopt) (t : Bytes) :
    (marshalStruct q ++ t).drop 24 = t := by
  have h := marshal_qopt_length q
  rw [← h, List.drop_left]

lemma netemSwitch_pad (p : Bytes) (info : Netem) :
    netemSwitch ⟨tcaNetemPad, p⟩ info = .cont info := by
  simp [netemSwitch, tcaNetemPad, tcaNetemCorr, tcaNetemReorder, tcaNetemCorrupt,
    tcaNetemRate, tcaNetemEcn, tcaNetemRate64, tcaNetemLatency64, tcaNetemJitter64,
    tcaNetemSlot]

lemma u32Switch_pad (p : Bytes) (info : U32) :
    u32Switch ⟨tcaU32Pad, p⟩ info = .cont info := by
  simp [u32Switch, tcaU32Pad, tcaU32ClassID, tcaU32Hash, tcaU32Link, tcaU32Divisor,
    tcaU32Sel, tcaU32Police, tcaU32InDev, tcaU32Pcnt, tcaU32Mark, tcaU32Flags,
    tcaU32Act]

/-- Records whose type code is the netem pad marker are skipped without
their payload being interpreted: inserting one anywhere between the other
records leaves the loop's result unchanged. -/
lemma netemAttrs_pad (l1 l2 : List Attr) (p : Bytes) (info : Netem) :
    netemAttrs (l1 ++ ⟨tcaNetemPad, p⟩ :: l2) info = netemAttrs (l1 ++ l2) info := by
  induction l1 generalizing info with
  | nil =>
    rw [List.nil_append, List.nil_append]
    rw [netemAttrs, netemSwitch_pad]
  | cons a t ih =>
    rw [List.cons_append, List.cons_append, netemAttrs, netemAttrs]
    cases netemSwitch a info with
    | cont i => exact ih i
    | stop i e => rfl

lemma u32Attrs_pad (l1 l2 : List Attr) (p : Bytes) (info : U32) :
    u32Attrs (l1 ++ ⟨tcaU32Pad, p⟩ :: l2) info = u32Attrs (l1 ++ l2) info := by
  induction l1 generalizing info with
  | nil =>
    rw [List.nil_append, List.nil_append]
    rw [u32Attrs, u32Switch_pad]
  | cons a t ih =>
    rw [List.cons_append, List.cons_append, u32Attrs, u32Attrs]
    cases u32Switch a info with
    | cont i => exact ih i
    | stop i e => rfl

/-- A netem attribute the decode loop consumes without stopping: a handled
type code with a payload of the kernel layout's size (pad payloads are
never read). -/
def NetemAttrWF (a : Attr) : Prop :=
  (a.typ = tcaNetemCorr ∧ a.payload.length = 12) ∨
  (a.typ = tcaNetemReorder ∧ a.payload.length = 8) ∨
  (a.typ = tcaNetemCorrupt ∧ a.payload.length = 8) ∨
  (a.typ = tcaNetemRate ∧ a.payload.length = 16) ∨
  (a.typ = tcaNetemEcn ∧ a.payload.length = 4) ∨
  (a.typ = tcaNetemRate64 ∧ a.payload.length = 8) ∨
  (a.typ = tcaNetemLatency64 ∧ a.payload.length = 8) ∨
  (a.typ = tcaNetemJitter64 ∧ a.payload.length = 8) ∨
  (a.typ = tcaNetemSlot ∧ a.payload.length = 40) ∨
  a.typ = tcaNetemPad

instance (a : Attr) : Decidable (NetemAttrWF a) := by
  unfold NetemAttrWF; infer_instance

/-- The record carried by a SwitchRes, whether the loop continues or stops. -/
def switchState {σ : Type} : SwitchRes σ → σ
  | .cont i => i
  | .stop i _ => i

/-- Whether a SwitchRes lets the loop continue. -/
def isCont {σ : Type} : SwitchRes σ → Bool
  | .cont _ => true
  | .stop _ _ => false

set_option maxHeartbeats 1000000 in
/-- No branch of the netem switch writes the Qopt field. -/
lemma netemSwitch_qopt (a : Attr) (info : Netem) :
    (switchState (netemSwitch a info)).Qopt = info.Qopt := by
  unfold netemSwitch
  split_ifs <;> rfl

lemma netemSwitch_wf (a : Attr) (h : NetemAttrWF a) (info : Netem) :
    isCont (netemSwitch a info) = true := by
  obtain ⟨ty, pl⟩ := a
  simp only [NetemAttrWF] at h
  rcases h with ⟨rfl, hl⟩ | ⟨rfl, hl⟩ | ⟨rfl, hl⟩ | ⟨rfl, hl⟩ | ⟨rfl, hl⟩ |
    ⟨rfl, hl⟩ | ⟨rfl, hl⟩ | ⟨rfl, hl⟩ | ⟨rfl, hl⟩ | rfl
  all_goals simp [netemSwitch, isCont, tcaNetemCorr, tcaNetemReorder,
    tcaNetemCorrupt, tcaNetemRate, tcaNetemEcn, tcaNetemRate64, tcaNetemLatency64,
    tcaNetemJitter64, tcaNetemSlot, tcaNetemPad, *]

lemma netemAttrs_wf (l : List Attr) (hwf : ∀ a ∈ l, NetemAttrWF a) (info : Netem) :
    ∃ i, netemAttrs l info = (i, .finished) ∧ i.Qopt = info.Qopt := by
  induction l generalizing info with
  | nil => exact ⟨info, rfl, rfl⟩
  | cons a t ih =>
    cases hj : netemSwitch a info with
    | stop j e =>
      have hc := netemSwitch_wf a (hwf a (by simp)) info
      rw [hj] at hc
      simp [isCont] at hc
    | cont j =>
      have hq : j.Qopt = info.Qopt := by
        have h1 := netemSwitch_qopt a info
        rw [hj] at h1
        exact h1
      rw [netemAttrs, hj]
      obtain ⟨i, hi, hq2⟩ := ih (fun b hb => hwf b (by simp [hb])) j
      exact ⟨i, hi, hq2.trans hq⟩

/-- A u32 attribute the decode loop consumes without stopping. -/
def U32AttrWF (a : Attr) : Prop :=
  (a.typ = tcaU32ClassID ∧ a.payload.length = 4) ∨
  (a.typ = tcaU32Hash ∧ a.payload.length = 4) ∨
  (a.typ = tcaU32Link ∧ a.payload.length = 4) ∨
  (a.typ = tcaU32Divisor ∧ a.payload.length = 4) ∨
  (a.typ = tcaU32Sel ∧ (extractU32Sel a.payload selZero).2 = none) ∨
  a.typ = tcaU32Police ∨
  a.typ = tcaU32InDev ∨
  (a.typ = tcaU32Pcnt ∧ a.payload.length = 8) ∨
  (a.typ = tcaU32Mark ∧ 12 ≤ a.payload.length) ∨
  (a.typ = tcaU32Flags ∧ a.payload.length = 4) ∨
  a.typ = tcaU32Act ∨
  a.typ = tcaU32Pad

instance (a : Attr) : Decidable (U32AttrWF a) := by
  unfold U32AttrWF; infer_instance

lemma u32Switch_wf (a : Attr) (h : U32AttrWF a) (info : U32) :
    isCont (u32Switch a info) = true := by
  obtain ⟨ty, pl⟩ := a
  simp only [U32AttrWF] at h
  rcases h with ⟨rfl, hl⟩ | ⟨rfl, hl⟩ | ⟨rfl, hl⟩ | ⟨rfl, hl⟩ | ⟨rfl, hl⟩ | rfl | rfl |
    ⟨rfl, hl⟩ | ⟨rfl, hl⟩ | ⟨rfl, hl⟩ | rfl | rfl
  · simp [u32Switch, isCont, tcaU32ClassID, hl]
  · simp [u32Switch, isCont, tcaU32ClassID, tcaU32Hash, hl]
  · simp [u32Switch, isCont, tcaU32ClassID, tcaU32Hash, tcaU32Link, hl]
  · simp [u32Switch, isCont, tcaU32ClassID, tcaU32Hash, tcaU32Link, tcaU32Divisor, hl]
  · rcases hx : extractU32Sel pl selZero with ⟨s, e⟩
    rw [hx] at hl
    simp only at hl
    subst hl
    simp [u32Switch, tcaU32ClassID, tcaU32Hash, tcaU32Link, tcaU32Divisor, tcaU32Sel,
      hx, isCont]
  · simp [u32Switch, isCont, tcaU32ClassID, tcaU32Hash, tcaU32Link, tcaU32Divisor,
      tcaU32Sel, tcaU32Police]
  · simp [u32Switch, isCont, tcaU32ClassID, tcaU32Hash, tcaU32Link, tcaU32Divisor,
      tcaU32Sel, tcaU32Police, tcaU32InDev]
  · simp [u32Switch, isCont, tcaU32ClassID, tcaU32Hash, tcaU32Link, tcaU32Divisor,
      tcaU32Sel, tcaU32Police, tcaU32InDev, tcaU32Pcnt, hl]
  · simp [u32Switch, tcaU32ClassID, tcaU32Hash, tcaU32Link, tcaU32Divisor, tcaU32Sel,
      tcaU32Police, tcaU32InDev, tcaU32Pcnt, tcaU32Mark, unmarshalStruct,
      instTcU32Mark, hl, isCont]
  · simp [u32Switch, isCont, tcaU32ClassID, tcaU32Hash, tcaU32Link, tcaU32Divisor,
      tcaU32Sel, tcaU32Police, tcaU32InDev, tcaU32Pcnt, tcaU32Mark, tcaU32Flags, hl]
  · simp [u32Switch, isCont, tcaU32ClassID, tcaU32Hash, tcaU32Link, tcaU32Divisor,
      tcaU32Sel, tcaU32Police, tcaU32InDev, tcaU32Pcnt, tcaU32Mark, tcaU32Flags,
      tcaU32Act]
  · simp [u32Switch, isCont, tcaU32ClassID, tcaU32Hash, tcaU32Link, tcaU32Divisor,
      tcaU32Sel, tcaU32Police, tcaU32InDev, tcaU32Pcnt, tcaU32Mark, tcaU32Flags,
      tcaU32Act, tcaU32Pad]

lemma u32Attrs_wf (l : List Attr) (hwf : ∀ a ∈ l, U32AttrWF a) (info : U32) :
    ∃ i, u32Attrs l info = (i, .finished) := by
  induction l generalizing info with
  | nil => exact ⟨info, rfl⟩
  | cons a t ih =>
    cases hj : u32Switch a info with
    | stop j e =>
      have hc := u32Switch_wf a (hwf a (by simp)) info
      rw [hj] at hc
      simp [isCont] at hc
    | cont j =>
      rw [u32Attrs, hj]
      exact ih (fun b hb => hwf b (by simp [hb])) j

/-- A type code none of the netem switch cases handles. -/
def NetemUnhandled (t : Nat) : Prop :=
  t ≠ tcaNetemCorr ∧ t ≠ tcaNetemReorder ∧ t ≠ tcaNetemCorrupt ∧ t ≠ tcaNetemRate ∧
    t ≠ tcaNetemEcn ∧ t ≠ tcaNetemRate64 ∧ t ≠ tcaNetemLatency64 ∧
    t ≠ tcaNetemJitter64 ∧ t ≠ tcaNetemSlot ∧ t ≠ tcaNetemPad

instance (t : Nat) : Decidable (NetemUnhandled t) := by
  unfold NetemUnhandled; infer_instance

/-- A type code none of the u32 switch cases handles. -/
def U32Unhandled (t : Nat) : Prop :=
  t ≠ tcaU32ClassID ∧ t ≠ tcaU32Hash ∧ t ≠ tcaU32Link ∧ t ≠ tcaU32Divisor ∧
    t ≠ tcaU32Sel ∧ t ≠ tcaU32Police ∧ t ≠ tcaU32InDev ∧ t ≠ tcaU32Pcnt ∧
    t ≠ tcaU32Mark ∧ t ≠ tcaU32Flags ∧ t ≠ tcaU32Act ∧ t ≠ tcaU32Pad

instance (t : Nat) : Decidable (U32Unhandled t) := by
  unfold U32Unhandled; infer_instance

lemma netemSwitch_unknown (a : Attr) (h : NetemUnhandled a.typ) (info : Netem) :
    netemSwitch a info = .stop info (.returned (netemUnknownMsg a.typ a.payload)) := by
  obtain ⟨h1, h2, h3, h4, h5, h6, h7, h8, h9, h10⟩ := h
  simp [netemSwitch, h1, h2, h3, h4, h5, h6, h7, h8, h9, h10]

lemma u32Switch_unknown (a : Attr) (h : U32Unhandled a.typ) (info : U32) :
    u32Switch a info = .stop info (.returned (u32UnknownMsg a.typ a.payload)) := by
  obtain ⟨h1, h2, h3, h4, h5, h6, h7, h8, h9, h10, h11, h12⟩ := h
  simp [u32Switch, h1, h2, h3, h4, h5, h6, h7, h8, h9, h10, h11, h12]

lemma netemAttrs_unknown (l1 l2 : List Attr) (a : Attr) (hwf : ∀ b ∈ l1, NetemAttrWF b)
    (ha : NetemUnhandled a.typ) (info : Netem) :
    ∃ i, netemAttrs (l1 ++ a :: l2) info
      = (i, .returned (netemUnknownMsg a.typ a.payload)) := by
  induction l1 generalizing info with
  | nil =>
    rw [List.nil_append, netemAttrs, netemSwitch_unknown a ha]
    exact ⟨info, rfl⟩
  | cons b t ih =>
    cases hj : netemSwitch b info with
    | stop j e =>
      have hc := netemSwitch_wf b (hwf b (by simp)) info
      rw [hj] at hc
      simp [isCont] at hc
    | cont j =>
      rw [List.cons_append, netemAttrs, hj]
      exact ih (fun c hc => hwf c (by simp [hc])) j

lemma u32Attrs_unknown (l1 l2 : List Attr) (a : Attr) (hwf : ∀ b ∈ l1, U32AttrWF b)
    (ha : U32Unhandled a.typ) (info : U32) :
    ∃ i, u32Attrs (l1 ++ a :: l2) info
      = (i, .returned (u32UnknownMsg a.typ a.payload)) := by
  induction l1 generalizing info with
  | nil =>
    rw [List.nil_append, u32Attrs, u32Switch_unknown a ha]
    exact ⟨info, rfl⟩
  | cons b t ih =>
    cases hj : u32Switch b info with
    | stop j e =>
      have hc := u32Switch_wf b (hwf b (by simp)) info
      rw [hj] at hc
      simp [isCont] at hc
    | cont j =>
      rw [List.cons_append, u32Attrs, hj]
      exact ih (fun c hc => hwf c (by simp [hc])) j

/-! ## Claim theorems -/

/-- Claim C9: for every valid netem or u32 TLV attribute stream, inserting a
record whose type code is the discipline's pad marker (tcaNetemPad,
tcaU32Pad) anywhere in the stream does not change the decoded result; the
pad record's payload is never interpreted (it is universally quantified
here).  Multiple pad records are covered by repeated application. -/
theorem pad_skipping :
    (∀ (q : NetemQopt) (l1 l2 : List Attr) (p : Bytes) (info : Netem),
       (∀ b ∈ l1 ++ l2, AttrEncOK b) → p.length ≤ 65531 →
       unmarshalNetem (marshalStruct q ++ encodeAttrs (l1 ++ ⟨tcaNetemPad, p⟩ :: l2)) info
         = unmarshalNetem (marshalStruct q ++ encodeAttrs (l1 ++ l2)) info)
  ∧ (∀ (l1 l2 : List Attr) (p : Bytes) (info : U32),
       (∀ b ∈ l1 ++ l2, AttrEncOK b) → p.length ≤ 65531 →
       unmarshalU32 (encodeAttrs (l1 ++ ⟨tcaU32Pad, p⟩ :: l2)) info
         = unmarshalU32 (encodeAttrs (l1 ++ l2)) info) := by
  constructor
  · intro q l1 l2 p info henc hp
    have h1 : ∀ b ∈ l1 ++ ⟨tcaNetemPad, p⟩ :: l2, AttrEncOK b := by
      intro b hb
      rcases List.mem_append.1 hb with hmem | hmem
      · exact henc b (List.mem_append.2 (Or.inl hmem))
      · rcases List.mem_cons.1 hmem with rfl | hmem
        · exact ⟨by norm_num [tcaNetemPad], hp⟩
        · exact henc b (List.mem_append.2 (Or.inr hmem))
    simp only [unmarshalNetem, unmarshal_marshal_qopt_mod, drop24_qopt,
      decodeAttrs_encodeAttrs _ h1, decodeAttrs_encodeAttrs _ henc, netemAttrs_pad]
  · intro l1 l2 p info henc hp
    have h1 : ∀ b ∈ l1 ++ ⟨tcaU32Pad, p⟩ :: l2, AttrEncOK b := by
      intro b hb
      rcases List.mem_append.1 hb with hmem | hmem
      · exact henc b (List.mem_append.2 (Or.inl hmem))
      · rcases List.mem_cons.1 hmem with rfl | hmem
        · exact ⟨by norm_num [tcaU32Pad], hp⟩
        · exact henc b (List.mem_append.2 (Or.inr hmem))
    simp only [unmarshalU32, decodeAttrs_encodeAttrs _ h1,
      decodeAttrs_encodeAttrs _ henc, u32Attrs_pad]

/-- Witness for C9 at a concrete input: a pad record with empty payload
inserted into the empty stream changes neither discipline's result. -/
theorem pad_skipping_witness :
    unmarshalNetem (marshalStruct qoptZero ++ encodeAttrs [⟨tcaNetemPad, []⟩]) netemZero
      = unmarshalNetem (marshalStruct qoptZero ++ encodeAttrs []) netemZero
  ∧ unmarshalU32 (encodeAttrs [⟨tcaU32Pad, []⟩]) u32Zero
      = unmarshalU32 (encodeAttrs []) u32Zero :=
  ⟨pad_skipping.1 qoptZero [] [] [] netemZero (by decide) (by decide),
   pad_skipping.2 [] [] [] u32Zero (by decide) (by decide)⟩

/-- Claim C6: a TLV stream containing a record whose type code is outside
the discipline's enumeration of handled codes (and is not its pad marker)
makes the unmarshal function fail with the unknown-attribute-type decode
error, rather than skipping the record. -/
theorem unknown_type_rejection :
    (∀ (q : NetemQopt) (l1 l2 : List Attr) (a : Attr) (info : Netem),
       (∀ b ∈ l1 ++ a :: l2, AttrEncOK b) → (∀ b ∈ l1, NetemAttrWF b) →
       NetemUnhandled a.typ →
       (unmarshalNetem (marshalStruct q ++ encodeAttrs (l1 ++ a :: l2)) info).2
         = some (netemUnknownMsg a.typ a.payload))
  ∧ (∀ (l1 l2 : List Attr) (a : Attr) (info : U32),
       (∀ b ∈ l1 ++ a :: l2, AttrEncOK b) → (∀ b ∈ l1, U32AttrWF b) →
       U32Unhandled a.typ →
       (unmarshalU32 (encodeAttrs (l1 ++ a :: l2)) info).2
         = some (u32UnknownMsg a.typ a.payload)) := by
  constructor
  · intro q l1 l2 a info henc hwf ha
    obtain ⟨i, hi⟩ := netemAttrs_unknown l1 l2 a hwf ha
      { info with Qopt := ⟨q.Latency % 4294967296, q.Limit % 4294967296,
          q.Loss % 4294967296, q.Gap % 4294967296, q.Duplicate % 4294967296,
          q.Jitter % 4294967296⟩ }
    simp only [unmarshalNetem, unmarshal_marshal_qopt_mod, drop24_qopt,
      decodeAttrs_encodeAttrs _ henc, hi]
  · intro l1 l2 a info henc hwf ha
    obtain ⟨i, hi⟩ := u32Attrs_unknown l1 l2 a hwf ha info
    simp only [unmarshalU32, decodeAttrs_encodeAttrs _ henc, hi]

/-- Witness for C6 at a concrete input: type code 99 with empty payload is
rejected by both disciplines with the unknown-attribute-type error. -/
theorem unknown_type_rejection_witness :
    (unmarshalNetem (marshalStruct qoptZero ++ encodeAttrs [⟨99, []⟩]) netemZero).2
      = some (netemUnknownMsg 99 [])
  ∧ (unmarshalU32 (encodeAttrs [⟨99, []⟩]) u32Zero).2 = some (u32UnknownMsg 99 []) :=
  ⟨unknown_type_rejection.1 qoptZero [] [] ⟨99, []⟩ netemZero (by decide) (by decide)
      (by decide),
   unknown_type_rejection.2 [] [] ⟨99, []⟩ u32Zero (by decide) (by decide) (by decide)⟩

/-- Counterexample to Claim C3 as stated: the fixed-record decoder called by
unmarshalNetem is given the whole input buffer (q_netem.go line 90), and on
a 28-byte buffer (24 zero bytes followed by one well-formed pad attribute)
it succeeds even though the buffer's length differs from the record's packed
size of 24 bytes, refuting the parenthetical "fails with a size-mismatch
error exactly when the buffer it is given does not equal the record's packed
size"; unmarshalNetem itself succeeds on that buffer, as the claim's main
clause requires, which is only possible because the parenthetical is false. -/
theorem netem_unmarshal_contract_counterexample :
    (unmarshalStruct (List.replicate 24 0 ++ [4, 0, 9, 0]) : Option NetemQopt)
      = some qoptZero
  ∧ (List.replicate 24 0 ++ [4, 0, 9, 0]).length ≠ 24
  ∧ unmarshalNetem (List.replicate 24 0 ++ [4, 0, 9, 0]) netemZero
      = (netemZero, none) := by decide

/-- Claim C3 (amended): for every input buffer whose prefix decodes to a
NetemQopt record and whose remaining bytes after byte 24 form a well-formed
netem TLV attribute stream, unmarshalNetem succeeds, decoding the mandatory
options block from the 24-byte prefix; the fixed-record decoder it calls
reads the record from the buffer's prefix and fails with a size-mismatch
error exactly when the buffer is SHORTER than the record's packed size. -/
theorem netem_unmarshal_contract_amended (data : Bytes) (info : Netem) (q : NetemQopt)
    (hq : (unmarshalStruct data : Option NetemQopt) = some q)
    (hfe : (decodeAttrs (data.drop 24)).2 = none)
    (hwf : ∀ a ∈ (decodeAttrs (data.drop 24)).1, NetemAttrWF a) :
    ((unmarshalNetem data info).2 = none ∧ (unmarshalNetem data info).1.Qopt = q)
  ∧ (∀ b : Bytes, (unmarshalStruct b : Option NetemQopt) = none ↔ b.length < 24) := by
  constructor
  · obtain ⟨i, hi, hqopt⟩ := netemAttrs_wf _ hwf { info with Qopt := q }
    simp only [unmarshalNetem, hq, hi, hfe, concatError]
    exact ⟨by simp, hqopt⟩
  · intro b
    simp only [unmarshalStruct, instTcNetemQopt]
    constructor
    · intro hb
      by_contra hlt
      simp [if_pos (by omega : 24 ≤ b.length)] at hb
    · intro hb
      rw [if_neg (by omega)]

/-- Witness for the amended C3 at a concrete input: a 24-byte zero buffer
with no attributes decodes successfully with a zero Qopt. -/
theorem netem_unmarshal_contract_amended_witness :
    (unmarshalNetem (List.replicate 24 0) netemZero).2 = none
  ∧ (unmarshalNetem (List.replicate 24 0) netemZero).1.Qopt = qoptZero :=
  (netem_unmarshal_contract_amended (List.replicate 24 0) netemZero qoptZero
    (by decide) (by decide) (by decide)).1

def netemC5 : Netem :=
  { Qopt := ⟨42, 0, 0, 0, 0, 7⟩, Corr := none, Reorder := none, Corrupt := none,
    Rate := none, Ecn := none, Rate64 := some 1000000, Latency64 := none,
    Jitter64 := none, Slot := none }

/-- The wire bytes of netemC5: the 24-byte Qopt record followed by one TLV
record of length 12, type tcaNetemRate64, payload 1000000 as 64 bits. -/
def netemC5bytes : Bytes :=
  [42, 0, 0, 0,  0, 0, 0, 0,  0, 0, 0, 0,  0, 0, 0, 0,  0, 0, 0, 0,  7, 0, 0, 0,
   12, 0, 8, 0,  64, 66, 15, 0,  0, 0, 0, 0]

/-- Claim C5: encoding a Netem payload with Qopt latency 42 and jitter 7 and
Rate64 present with value 1000000 (all other optional fields absent), then
decoding the produced bytes, yields the original payload exactly: Qopt
matches, Rate64 is 1000000, and Corr, Reorder, Corrupt, Rate and Slot remain
absent (the decoded object equals netemC5, whose those fields are none). -/
theorem netem_concrete_roundtrip :
    marshalNetem (some netemC5) = Except.ok netemC5bytes
  ∧ unmarshalNetem netemC5bytes netemZero = (netemC5, none) :=
  ⟨by rfl, by decide⟩

def msgC7 : Msg := ⟨0, 123, BuildHandle 65535 0, 4294967281, 0⟩

/-- Claim C7: decomposing a handle built from any 16-bit (major, minor) pair
returns the original pair; BuildHandle 0xFFFF 0x0000 equals 0xFFFF0000; and
the message header with that handle and parent 0xFFFFFFF1 round-trips
through marshal and unmarshal unchanged. -/
theorem build_handle_roundtrip :
    (∀ major minor : Nat, major < 65536 → minor < 65536 →
       handleMajor (BuildHandle major minor) = major ∧
       handleMinor (BuildHandle major minor) = minor)
  ∧ BuildHandle 65535 0 = 4294901760
  ∧ (unmarshalStruct (marshalStruct msgC7) : Option Msg) = some msgC7 := by
  refine ⟨?_, by decide, by decide⟩
  intro mj mn h1 h2
  unfold BuildHandle handleMajor handleMinor
  constructor <;> omega

/-- Witness for C7 at the concrete pair of the spec's scenario. -/
theorem build_handle_roundtrip_witness :
    handleMajor (BuildHandle 65535 0) = 65535
  ∧ handleMinor (BuildHandle 65535 0) = 0 :=
  build_handle_roundtrip.1 65535 0 (by decide) (by decide)

def selC8 : U32Sel :=
  { Flags := 0, Offshift := 0, NKeys := 2, OffMask := 0, Off := 0, Offoff := 0,
    Hoff := 0, Hmask := 0,
    Keys := [⟨4294967295, 10, 0, 0⟩, ⟨65535, 20, 4, 0⟩] }

/-- Claim C8: the selector with NKeys 2 and keys (mask 0xFFFFFFFF, val 10,
off 0, offmask 0) and (mask 0x0000FFFF, val 20, off 4, offmask 0) encoded by
validateU32SelOptions and decoded by extractU32Sel yields an identical
header and the same ordered pair of keys. -/
theorem u32sel_concrete_roundtrip :
    extractU32Sel (validateU32SelOptions selC8) selZero = (selC8, none) := by decide

/-- The C1 failing input for netem: a zero Qopt followed by two well-framed
attributes, tcaNetemCorr and tcaNetemRate, each with a malformed (2-byte)
payload. -/
def netemBadBytes : Bytes :=
  marshalStruct qoptZero ++ encodeAttrs [⟨tcaNetemCorr, [0, 0]⟩, ⟨tcaNetemRate, [0, 0]⟩]

/-- The C1 failing input for u32: two well-framed attributes, tcaU32Sel and
tcaU32Mark, each with a malformed (1-byte) payload. -/
def u32BadBytes : Bytes := encodeAttrs [⟨tcaU32Sel, [0]⟩, ⟨tcaU32Mark, [0]⟩]

/-- Claim C1 evaluated at its failing inputs.  Netem: both sub-payloads fail
to decode, yet unmarshalNetem returns NO error at all (the loop passes each
sub-error to concatError but discards the result, so multiError stays nil),
while both pointer fields are populated with zero structs.  U32: decoding
stops at the first failure and returns only that error; the second malformed
attribute (Mark) is never decoded and its field stays unset.  This
contradicts the claim that every sub-failure is reported and that the error
is non-absent iff a sub-error occurred. -/
theorem error_aggregation_eval :
    unmarshalNetem netemBadBytes netemZero
      = ({ netemZero with Corr := some ⟨0, 0, 0⟩, Rate := some ⟨0, 0, 0, 0⟩ }, none)
  ∧ (unmarshalStruct ([0, 0] : Bytes) : Option NetemCorr) = none
  ∧ (unmarshalStruct ([0, 0] : Bytes) : Option NetemRate) = none
  ∧ unmarshalU32 u32BadBytes u32Zero = (u32Zero, some "not enough bytes for U32Sel")
  ∧ (unmarshalStruct ([0] : Bytes) : Option U32Mark) = none := by decide

/-- Claim C10: when a fixed-layout optional sub-block attribute (Corr,
Reorder, Corrupt, Rate or Slot) appears in the stream with a payload too
short to decode, unmarshalNetem nevertheless sets the corresponding pointer
field to the freshly allocated zero struct, so presence of the field does
not imply the wire bytes decoded successfully (any payload shorter than
eight bytes fails for all five block types). -/
theorem netem_presence_not_success (p : Bytes) (hp : p.length < 8) :
    ((unmarshalNetem (marshalStruct qoptZero ++ encodeAttrs [⟨tcaNetemCorr, p⟩]) netemZero).1.Corr
        = some ⟨0, 0, 0⟩ ∧ (unmarshalStruct p : Option NetemCorr) = none)
  ∧ ((unmarshalNetem (marshalStruct qoptZero ++ encodeAttrs [⟨tcaNetemReorder, p⟩]) netemZero).1.Reorder
        = some ⟨0, 0⟩ ∧ (unmarshalStruct p : Option NetemReorder) = none)
  ∧ ((unmarshalNetem (marshalStruct qoptZero ++ encodeAttrs [⟨tcaNetemCorrupt, p⟩]) netemZero).1.Corrupt
        = some ⟨0, 0⟩ ∧ (unmarshalStruct p : Option NetemCorrupt) = none)
  ∧ ((unmarshalNetem (marshalStruct qoptZero ++ encodeAttrs [⟨tcaNetemRate, p⟩]) netemZero).1.Rate
        = some ⟨0, 0, 0, 0⟩ ∧ (unmarshalStruct p : Option NetemRate) = none)
  ∧ ((unmarshalNetem (marshalStruct qoptZero ++ encodeAttrs [⟨tcaNetemSlot, p⟩]) netemZero).1.Slot
        = some ⟨0, 0, 0, 0, 0, 0⟩ ∧ (unmarshalStruct p : Option NetemSlot) = none) := by
  refine ⟨⟨?_, ?_⟩, ⟨?_, ?_⟩, ⟨?_, ?_⟩, ⟨?_, ?_⟩, ⟨?_, ?_⟩⟩
  case refine_2 =>
    simp only [unmarshalStruct, instTcNetemCorr]
    rw [if_neg (by omega)]
  case refine_4 =>
    simp only [unmarshalStruct, instTcNetemReorder]
    rw [if_neg (by omega)]
  case refine_6 =>
    simp only [unmarshalStruct, instTcNetemCorrupt]
    rw [if_neg (by omega)]
  case refine_8 =>
    simp only [unmarshalStruct, instTcNetemRate]
    rw [if_neg (by omega)]
  case refine_10 =>
    simp only [unmarshalStruct, instTcNetemSlot]
    rw [if_neg (by omega)]
  case refine_1 =>
    have henc : ∀ b ∈ [(⟨tcaNetemCorr, p⟩ : Attr)], AttrEncOK b := by
      intro b hb
      simp at hb
      subst hb
      simp [AttrEncOK, tcaNetemCorr]
      omega
    have hdec := decodeAttrs_encodeAttrs [⟨tcaNetemCorr, p⟩] henc
    have hnone : (unmarshalStruct p : Option NetemCorr) = none := by
      simp only [unmarshalStruct, instTcNetemCorr]
      rw [if_neg (by omega)]
    simp only [unmarshalNetem, unmarshal_marshal_qopt_mod, drop24_qopt, hdec]
    simp only [netemAttrs, netemSwitch]
    simp [hnone, Option.getD]
  case refine_3 =>
    have henc : ∀ b ∈ [(⟨tcaNetemReorder, p⟩ : Attr)], AttrEncOK b := by
      intro b hb
      simp at hb
      subst hb
      simp [AttrEncOK, tcaNetemReorder]
      omega
    have hdec := decodeAttrs_encodeAttrs [⟨tcaNetemReorder, p⟩] henc
    have hnone : (unmarshalStruct p : Option NetemReorder) = none := by
      simp only [unmarshalStruct, instTcNetemReorder]
      rw [if_neg (by omega)]
    simp only [unmarshalNetem, unmarshal_marshal_qopt_mod, drop24_qopt, hdec]
    simp only [netemAttrs, netemSwitch]
    simp [hnone, Option.getD, tcaNetemCorr, tcaNetemReorder]
  case refine_5 =>
    have henc : ∀ b ∈ [(⟨tcaNetemCorrupt, p⟩ : Attr)], AttrEncOK b := by
      intro b hb
      simp at hb
      subst hb
      simp [AttrEncOK, tcaNetemCorrupt]
      omega
    have hdec := decodeAttrs_encodeAttrs [⟨tcaNetemCorrupt, p⟩] henc
    have hnone : (unmarshalStruct p : Option NetemCorrupt) = none := by
      simp only [unmarshalStruct, instTcNetemCorrupt]
      rw [if_neg (by omega)]
    simp only [unmarshalNetem, unmarshal_marshal_qopt_mod, drop24_qopt, hdec]
    simp only [netemAttrs, netemSwitch]
    simp [hnone, Option.getD, tcaNetemCorr, tcaNetemReorder, tcaNetemCorrupt]
  case refine_7 =>
    have henc : ∀ b ∈ [(⟨tcaNetemRate, p⟩ : Attr)], AttrEncOK b := by
      intro b hb
      simp at hb
      subst hb
      simp [AttrEncOK, tcaNetemRate]
      omega
    have hdec := decodeAttrs_encodeAttrs [⟨tcaNetemRate, p⟩] henc
    have hnone : (unmarshalStruct p : Option NetemRate) = none := by
      simp only [unmarshalStruct, instTcNetemRate]
      rw [if_neg (by omega)]
    simp only [unmarshalNetem, unmarshal_marshal_qopt_mod, drop24_qopt, hdec]
    simp only [netemAttrs, netemSwitch]
    simp [hnone, Option.getD, tcaNetemCorr, tcaNetemReorder, tcaNetemCorrupt,
      tcaNetemRate]
  case refine_9 =>
    have henc : ∀ b ∈ [(⟨tcaNetemSlot, p⟩ : Attr)], AttrEncOK b := by
      intro b hb
      simp at hb
      subst hb
      simp [AttrEncOK, tcaNetemSlot]
      omega
    have hdec := decodeAttrs_encodeAttrs [⟨tcaNetemSlot, p⟩] henc
    have hnone : (unmarshalStruct p : Option NetemSlot) = none := by
      simp only [unmarshalStruct, instTcNetemSlot]
      rw [if_neg (by omega)]
    simp only [unmarshalNetem, unmarshal_marshal_qopt_mod, drop24_qopt, hdec]
    simp only [netemAttrs, netemSwitch]
    simp [hnone, Option.getD, tcaNetemCorr, tcaNetemReorder, tcaNetemCorrupt,
      tcaNetemRate, tcaNetemEcn, tcaNetemRate64, tcaNetemLatency64, tcaNetemJitter64,
      tcaNetemSlot]

/-- Witness for C10 at the concrete input of an empty sub-block payload. -/
theorem netem_presence_not_success_witness :
    (unmarshalNetem (marshalStruct qoptZero ++ encodeAttrs [⟨tcaNetemCorr, []⟩]) netemZero).1.Corr
      = some ⟨0, 0, 0⟩
  ∧ (unmarshalStruct ([] : Bytes) : Option NetemCorr) = none :=
  (netem_presence_not_success [] (by decide)).1

lemma getD_take (l : Bytes) (n i : Nat) (h : i < n) :
    (l.take n).getD i 0 = l.getD i 0 := by
  simp [List.getD_eq_getElem?_getD, List.getElem?_take, h]

lemma extractU32Keys_total : ∀ (n i : Nat) (data : Bytes) (info : U32Sel),
    15 + (i + n) * 16 ≤ data.length →
    ∃ ks : List U32Key, extractU32Keys n i data info
      = ({ info with Keys := info.Keys ++ ks }, none) ∧ ks.length = n := by
  intro n
  induction n with
  | zero =>
    intro i data info _
    exact ⟨[], by simp [extractU32Keys], rfl⟩
  | succ n ih =>
    intro i data info h
    have hlen : ((data.drop (15 + i * 16)).take 16).length = 16 := by
      simp only [List.length_take, List.length_drop]
      omega
    have hsome : ∃ k, (unmarshalStruct ((data.drop (15 + i * 16)).take 16) : Option U32Key)
        = some k := by
      simp only [unmarshalStruct, instTcU32Key]
      rw [if_pos (by omega)]
      exact ⟨_, rfl⟩
    obtain ⟨k, hk⟩ := hsome
    obtain ⟨ks, hks, hlen2⟩ := ih (i + 1) data { info with Keys := info.Keys ++ [k] }
      (by omega)
    refine ⟨k :: ks, ?_, by simp [hlen2]⟩
    simp only [extractU32Keys, hk]
    rw [hks]
    simp

lemma extractU32Keys_append : ∀ (n i : Nat) (data ext : Bytes) (info : U32Sel),
    15 + (i + n) * 16 ≤ data.length →
    extractU32Keys n i (data ++ ext) info = extractU32Keys n i data info := by
  intro n
  induction n with
  | zero => intro i data ext info _; rfl
  | succ n ih =>
    intro i data ext info h
    have hslice : (((data ++ ext).drop (15 + i * 16)).take 16)
        = ((data.drop (15 + i * 16)).take 16) := by
      rw [List.drop_append_of_le_length (by omega),
        List.take_append_of_le_length (by simp; omega)]
    simp only [extractU32Keys, hslice]
    rcases hk : (unmarshalStruct ((data.drop (15 + i * 16)).take 16) : Option U32Key)
      with _ | k
    · rfl
    · exact ih (i + 1) data ext _ (by omega)

lemma extractU32Sel_append (data ext : Bytes) (info : U32Sel)
    (h : 15 + 16 * data.getD 2 0 ≤ data.length) :
    extractU32Sel (data ++ ext) info = extractU32Sel data info := by
  rcases data with _ | ⟨b0, _ | ⟨b1, _ | ⟨b2, _ | ⟨b3, _ | ⟨b4, _ | ⟨b5, _ | ⟨b6,
    _ | ⟨b7, _ | ⟨b8, _ | ⟨b9, _ | ⟨b10, _ | ⟨b11, _ | ⟨b12, _ | ⟨b13, _ | ⟨b14,
    rest⟩⟩⟩⟩⟩⟩⟩⟩⟩⟩⟩⟩⟩⟩⟩
  · exfalso; simp at h
  · exfalso; simp at h
  · exfalso; simp at h
  · exfalso; simp at h; omega
  · exfalso; simp at h; omega
  · exfalso; simp at h; omega
  · exfalso; simp at h; omega
  · exfalso; simp at h; omega
  · exfalso; simp at h; omega
  · exfalso; simp at h; omega
  · exfalso; simp at h; omega
  · exfalso; simp at h; omega
  · exfalso; simp at h; omega
  · exfalso; simp at h; omega
  · exfalso; simp at h; omega
  · simp only [List.getD_cons_succ, List.getD_cons_zero, List.length_cons] at h
    simp only [List.cons_append, extractU32Sel, List.length_cons, List.length_append]
    split_ifs with h1 h2
    · rfl
    · exfalso; omega
    · exfalso; omega
    · exact extractU32Keys_append b2 0
        (b0 :: b1 :: b2 :: b3 :: b4 :: b5 :: b6 :: b7 :: b8 :: b9 :: b10 :: b11 ::
          b12 :: b13 :: b14 :: rest) ext _ (by simp; omega)

/-- The selector header fields extractU32Sel reads from the first 15 bytes
of its buffer. -/
def hdrOf (data : Bytes) (info : U32Sel) : U32Sel :=
  { info with
    Flags := data.getD 0 0, Offshift := data.getD 1 0, NKeys := data.getD 2 0
    OffMask := decU16 data 3, Off := decU16 data 5, Offoff := decU16 data 7
    Hoff := decU16 data 9, Hmask := decU32 data 11 }

lemma extractU32Sel_take (data : Bytes) (info : U32Sel)
    (hd : 15 + 16 * data.getD 2 0 ≤ data.length) :
    extractU32Sel data info
      = extractU32Sel (data.take (15 + 16 * data.getD 2 0)) info := by
  have hgd := getD_take data (15 + 16 * data.getD 2 0) 2 (by omega)
  have happ := extractU32Sel_append (data.take (15 + 16 * data.getD 2 0))
    (data.drop (15 + 16 * data.getD 2 0)) info
    (by rw [hgd]; simp only [List.length_take]; omega)
  rw [List.take_append_drop] at happ
  exact happ

/-- Claim C4: extractU32Sel fails with the explicit header insufficiency
error on buffers shorter than 15 bytes, fails with the distinct key-array
insufficiency error when the buffer is shorter than 15 + 16*NKeys bytes
(NKeys read from byte 2), and otherwise decodes the header and exactly NKeys
16-byte key records; in the sufficient case its result depends only on the
first 15 + 16*NKeys bytes of the buffer, so it never reads past the region
the length checks have validated. -/
theorem extract_u32sel_bounds (data : Bytes) (info : U32Sel) :
    (data.length < 15 →
      extractU32Sel data info = (info, some "not enough bytes for U32Sel"))
  ∧ (15 ≤ data.length → data.length < 15 + 16 * data.getD 2 0 →
      extractU32Sel data info = (hdrOf data info, some "not enough bytes for U32Keys"))
  ∧ (15 ≤ data.length → 15 + 16 * data.getD 2 0 ≤ data.length →
      (∃ ks : List U32Key, extractU32Sel data info
          = ({ hdrOf data info with Keys := info.Keys ++ ks }, none)
        ∧ ks.length = data.getD 2 0)
      ∧ extractU32Sel data info
          = extractU32Sel (data.take (15 + 16 * data.getD 2 0)) info)
  ∧ "not enough bytes for U32Sel" ≠ "not enough bytes for U32Keys" := by
  rcases data with _ | ⟨b0, _ | ⟨b1, _ | ⟨b2, _ | ⟨b3, _ | ⟨b4, _ | ⟨b5, _ | ⟨b6,
    _ | ⟨b7, _ | ⟨b8, _ | ⟨b9, _ | ⟨b10, _ | ⟨b11, _ | ⟨b12, _ | ⟨b13, _ | ⟨b14,
    rest⟩⟩⟩⟩⟩⟩⟩⟩⟩⟩⟩⟩⟩⟩⟩
  · exact ⟨fun _ => rfl, fun h1 _ => by simp at h1, fun h1 _ => by simp at h1, by decide⟩
  · exact ⟨fun _ => rfl, fun h1 _ => by simp at h1, fun h1 _ => by simp at h1, by decide⟩
  · exact ⟨fun _ => rfl, fun h1 _ => by simp at h1, fun h1 _ => by simp at h1, by decide⟩
  · exact ⟨fun _ => rfl, fun h1 _ => by simp at h1, fun h1 _ => by simp at h1, by decide⟩
  · exact ⟨fun _ => rfl, fun h1 _ => by simp at h1, fun h1 _ => by simp at h1, by decide⟩
  · exact ⟨fun _ => rfl, fun h1 _ => by simp at h1, fun h1 _ => by simp at h1, by decide⟩
  · exact ⟨fun _ => rfl, fun h1 _ => by simp at h1, fun h1 _ => by simp at h1, by decide⟩
  · exact ⟨fun _ => rfl, fun h1 _ => by simp at h1, fun h1 _ => by simp at h1, by decide⟩
  · exact ⟨fun _ => rfl, fun h1 _ => by simp at h1, fun h1 _ => by simp at h1, by decide⟩
  · exact ⟨fun _ => rfl, fun h1 _ => by simp at h1, fun h1 _ => by simp at h1, by decide⟩
  · exact ⟨fun _ => rfl, fun h1 _ => by simp at h1, fun h1 _ => by simp at h1, by decide⟩
  · exact ⟨fun _ => rfl, fun h1 _ => by simp at h1, fun h1 _ => by simp at h1, by decide⟩
  · exact ⟨fun _ => rfl, fun h1 _ => by simp at h1, fun h1 _ => by simp at h1, by decide⟩
  · exact ⟨fun _ => rfl, fun h1 _ => by simp at h1, fun h1 _ => by simp at h1, by decide⟩
  · exact ⟨fun _ => rfl, fun h1 _ => by simp at h1, fun h1 _ => by simp at h1, by decide⟩
  · refine ⟨fun hlt => by simp at hlt; omega, ?_, ?_, by decide⟩
    · intro h1 h2
      simp only [List.getD_cons_succ, List.getD_cons_zero, List.length_cons] at h2
      simp only [extractU32Sel]
      rw [if_pos (by simp; omega)]
      simp [hdrOf, decU16, decU32]
    · intro h1 h2
      simp only [List.getD_cons_succ, List.getD_cons_zero, List.length_cons] at h2
      constructor
      · obtain ⟨ks, hks, hksl⟩ := extractU32Keys_total b2 0
          (b0 :: b1 :: b2 :: b3 :: b4 :: b5 :: b6 :: b7 :: b8 :: b9 :: b10 :: b11 ::
            b12 :: b13 :: b14 :: rest)
          { info with
            Flags := b0, Offshift := b1, NKeys := b2
            OffMask := b3 + 256 * b4, Off := b5 + 256 * b6, Offoff := b7 + 256 * b8
            Hoff := b9 + 256 * b10
            Hmask := b11 + 256 * b12 + 65536 * b13 + 16777216 * b14 }
          (by simp; omega)
        refine ⟨ks, ?_, by simpa using hksl⟩
        simp only [extractU32Sel]
        rw [if_neg (by simp; omega)]
        rw [hks]
        simp [hdrOf, decU16, decU32]
      · exact extractU32Sel_take _ info
          (by simp only [List.getD_cons_succ, List.getD_cons_zero, List.length_cons]
              omega)

/-- Witness for C4: the empty buffer hits the short-header error, and a
15-byte zero buffer (NKeys 0) decodes successfully with zero keys. -/
theorem extract_u32sel_bounds_witness :
    extractU32Sel [] selZero = (selZero, some "not enough bytes for U32Sel")
  ∧ (∃ ks : List U32Key, extractU32Sel (List.replicate 15 0) selZero
        = ({ hdrOf (List.replicate 15 0) selZero with Keys := selZero.Keys ++ ks }, none)
      ∧ ks.length = (List.replicate 15 0).getD 2 0) :=
  ⟨(extract_u32sel_bounds [] selZero).1 (by decide),
   ((extract_u32sel_bounds (List.replicate 15 0) selZero).2.2.1 (by decide)
      (by decide)).1⟩

/-! ## U32 round-trip machinery -/

instance (k : U32Key) : Decidable (U32KeyWF k) := by
  unfold U32KeyWF; infer_instance

/-- A selector all of whose fields fit their machine types and whose
declared key count agrees with its key list. -/
def U32SelWF (s : U32Sel) : Prop :=
  s.Flags < 256 ∧ s.Offshift < 256 ∧ s.NKeys < 256 ∧ s.NKeys = s.Keys.length ∧
    s.OffMask < 65536 ∧ s.Off < 65536 ∧ s.Offoff < 65536 ∧ s.Hoff < 65536 ∧
    s.Hmask < 4294967296 ∧ ∀ k ∈ s.Keys, U32KeyWF k

instance (s : U32Sel) : Decidable (U32SelWF s) := by
  unfold U32SelWF; infer_instance

instance (m : U32Mark) : Decidable (U32MarkWF m) := by
  unfold U32MarkWF; infer_instance

lemma marshal_mark_length (m : U32Mark) : (marshalStruct m : Bytes).length = 12 := by
  simp [marshalStruct, instTcU32Mark, enc32]

lemma validate_length (s : U32Sel) :
    (validateU32SelOptions s).length = 15 + 16 * s.Keys.length := by
  simp [validateU32SelOptions, enc16, enc32, marshalU32Keys_length]
  omega

lemma take_marshal_key (k : U32Key) (t : Bytes) :
    (marshalStruct k ++ t).take 16 = marshalStruct k := by
  rw [List.take_append_of_le_length (by rw [marshal_key_length])]
  rw [← marshal_key_length k, List.take_length]

lemma drop_marshal_key (k : U32Key) (t : Bytes) :
    (marshalStruct k ++ t).drop 16 = t := by
  rw [← marshal_key_length k, List.drop_left]

lemma extractU32Keys_spec : ∀ (ks : List U32Key) (i : Nat) (data : Bytes) (info : U32Sel),
    (∀ k ∈ ks, U32KeyWF k) →
    data.drop (15 + i * 16) = marshalU32Keys ks →
    extractU32Keys ks.length i data info
      = ({ info with Keys := info.Keys ++ ks }, none) := by
  intro ks
  induction ks with
  | nil =>
    intro i data info _ _
    simp [extractU32Keys]
  | cons k ks ih =>
    intro i data info hwf hdrop
    have hslice : (data.drop (15 + i * 16)).take 16 = marshalStruct k := by
      rw [hdrop, marshalU32Keys, take_marshal_key]
    have hk : (unmarshalStruct ((data.drop (15 + i * 16)).take 16) : Option U32Key)
        = some k := by
      rw [hslice]
      have h := unmarshal_marshal_key k (hwf k (by simp)) []
      simpa using h
    have hdrop2 : data.drop (15 + (i + 1) * 16) = marshalU32Keys ks := by
      have he : 15 + (i + 1) * 16 = 15 + i * 16 + 16 := by omega
      rw [he, ← List.drop_drop 16 (15 + i * 16) data, hdrop, marshalU32Keys,
        drop_marshal_key]
    simp only [List.length_cons, extractU32Keys, hk]
    rw [ih (i + 1) data { info with Keys := info.Keys ++ [k] }
      (fun x hx => hwf x (by simp [hx])) hdrop2]
    simp

lemma extract_validate (s : U32Sel) (h : U32SelWF s) :
    extractU32Sel (validateU32SelOptions s) selZero = (s, none) := by
  obtain ⟨f, os, nk, om, off, ooff, hoff, hm, ks⟩ := s
  simp only [U32SelWF] at h
  obtain ⟨h1, h2, h3, h4, h5, h6, h7, h8, h9, h10⟩ := h
  simp only [validateU32SelOptions, enc16, enc32, List.cons_append, List.nil_append]
  simp only [extractU32Sel]
  rw [if_neg (by simp [marshalU32Keys_length]; omega)]
  have hb2 : nk % 256 = ks.length := by omega
  rw [hb2]
  refine (extractU32Keys_spec ks 0 _ _ h10 ?hd).trans ?hfinal
  case hd => simp
  case hfinal =>
    simp only [selZero, List.nil_append, Prod.mk.injEq, U32Sel.mk.injEq]
    refine ⟨⟨by omega, by omega, by omega, by omega, by omega, by omega, by omega,
      by omega, by simp⟩, trivial⟩

/-- The attribute marshalU32 emits for the Sel field. -/
def selAttrs : Option U32Sel → List Attr
  | none => []
  | some s => [⟨tcaU32Sel, validateU32SelOptions s⟩]

/-- The attribute marshalU32 emits for the Mark field. -/
def markAttrs : Option U32Mark → List Attr
  | none => []
  | some m => [⟨tcaU32Mark, marshalStruct m⟩]

/-- The attribute marshalU32 emits for a nonzero ClassID. -/
def classAttrs (c : Nat) : List Attr :=
  if c = 0 then [] else [⟨tcaU32ClassID, enc32 c⟩]

/-- The attribute marshalU32 emits for nonzero Flags. -/
def flagAttrs (f : Nat) : List Attr :=
  if f = 0 then [] else [⟨tcaU32Flags, enc32 f⟩]

/-- With Police and Actions absent, marshalU32 emits exactly the Sel, Mark,
ClassID and Flags attributes, in the source's emission order. -/
lemma marshalU32_attrs (info : U32) (hPolice : info.Police = none)
    (hAct : info.Actions = none) :
    marshalU32 (some info) = .ok (encodeAttrs
      (selAttrs info.Sel ++ markAttrs info.Mark ++ classAttrs info.ClassID ++
        flagAttrs info.Flags)) := by
  rcases hs : info.Sel with _ | s <;> rcases hm : info.Mark with _ | m <;>
    by_cases hc : info.ClassID = 0 <;> by_cases hf : info.Flags = 0 <;>
    simp [marshalU32, marshalAttributes, selAttrs, markAttrs, classAttrs, flagAttrs,
      toAttr, renderValue, hPolice, hAct, hs, hm, hc, hf]

lemma encok_append {l1 l2 : List Attr} (h1 : ∀ b ∈ l1, AttrEncOK b)
    (h2 : ∀ b ∈ l2, AttrEncOK b) : ∀ b ∈ l1 ++ l2, AttrEncOK b := by
  intro b hb
  rcases List.mem_append.1 hb with h | h
  · exact h1 b h
  · exact h2 b h

lemma selAttrs_encok (so : Option U32Sel) (hso : ∀ s, so = some s → U32SelWF s) :
    ∀ b ∈ selAttrs so, AttrEncOK b := by
  cases so with
  | none => simp [selAttrs]
  | some s =>
    intro b hb
    simp only [selAttrs, List.mem_singleton] at hb
    subst hb
    obtain ⟨_, _, h3, h4, _⟩ := hso s rfl
    refine ⟨by norm_num [tcaU32Sel], ?_⟩
    simp only [validate_length]
    omega

lemma markAttrs_encok (mo : Option U32Mark) : ∀ b ∈ markAttrs mo, AttrEncOK b := by
  cases mo with
  | none => simp [markAttrs]
  | some m =>
    intro b hb
    simp only [markAttrs, List.mem_singleton] at hb
    subst hb
    exact ⟨by norm_num [tcaU32Mark], by simp [marshal_mark_length]⟩

lemma classAttrs_encok (c : Nat) : ∀ b ∈ classAttrs c, AttrEncOK b := by
  unfold classAttrs
  split_ifs
  · simp
  · intro b hb
    simp only [List.mem_singleton] at hb
    subst hb
    exact ⟨by norm_num [tcaU32ClassID], by simp [enc32]⟩

lemma flagAttrs_encok (f : Nat) : ∀ b ∈ flagAttrs f, AttrEncOK b := by
  unfold flagAttrs
  split_ifs
  · simp
  · intro b hb
    simp only [List.mem_singleton] at hb
    subst hb
    exact ⟨by norm_num [tcaU32Flags], by simp [enc32]⟩

lemma u32Attrs_selAttrs (so : Option U32Sel) (hso : ∀ s, so = some s → U32SelWF s)
    (rest : List Attr) (i : U32) :
    u32Attrs (selAttrs so ++ rest) i
      = u32Attrs rest (match so with | none => i | some s => { i with Sel := some s }) := by
  cases so with
  | none => rfl
  | some s =>
    have hv := extract_validate s (hso s rfl)
    simp [selAttrs, u32Attrs, u32Switch, tcaU32ClassID,
      tcaU32Hash, tcaU32Link, tcaU32Divisor, tcaU32Sel, hv]

lemma u32Attrs_markAttrs (mo : Option U32Mark) (hmo : ∀ m, mo = some m → U32MarkWF m)
    (rest : List Attr) (i : U32) :
    u32Attrs (markAttrs mo ++ rest) i
      = u32Attrs rest (match mo with | none => i | some m => { i with Mark := some m }) := by
  cases mo with
  | none => rfl
  | some m =>
    have hv : (unmarshalStruct (marshalStruct m) : Option U32Mark) = some m := by
      have h := unmarshal_marshal_mark m (hmo m rfl) []
      simpa using h
    simp [markAttrs, u32Attrs, u32Switch, tcaU32ClassID,
      tcaU32Hash, tcaU32Link, tcaU32Divisor, tcaU32Sel, tcaU32Police, tcaU32InDev,
      tcaU32Pcnt, tcaU32Mark, hv]

lemma u32Attrs_classAttrs (c : Nat) (hc : c < 4294967296) (rest : List Attr) (i : U32) :
    u32Attrs (classAttrs c ++ rest) i
      = u32Attrs rest (if c = 0 then i else { i with ClassID := c }) := by
  by_cases h : c = 0
  · simp [classAttrs, h]
  · have hd := decU32_enc32 c hc
    simp [classAttrs, h, u32Attrs, u32Switch, tcaU32ClassID, enc32_length, hd]

lemma u32Attrs_flagAttrs (f : Nat) (hf : f < 4294967296) (rest : List Attr) (i : U32) :
    u32Attrs (flagAttrs f ++ rest) i
      = u32Attrs rest (if f = 0 then i else { i with Flags := f }) := by
  by_cases h : f = 0
  · simp [flagAttrs, h]
  · have hd := decU32_enc32 f hf
    simp [flagAttrs, h, u32Attrs, u32Switch, tcaU32ClassID, tcaU32Hash, tcaU32Link,
      tcaU32Divisor, tcaU32Sel, tcaU32Police, tcaU32InDev, tcaU32Pcnt, tcaU32Mark,
      tcaU32Flags, enc32_length, hd]

/-- Counterexample to Claim C2 as stated: a U32 whose Hash is 1 (every other
field absent or zero) marshals to an empty attribute stream, because
marshalU32 never emits Hash (nor Link, Divisor, InDev, Pcnt), so decoding
the produced bytes yields the zero object, not the original. -/
theorem u32_roundtrip_counterexample :
    marshalU32 (some { u32Zero with Hash := 1 }) = Except.ok []
  ∧ unmarshalU32 [] u32Zero = (u32Zero, none)
  ∧ u32Zero ≠ { u32Zero with Hash := 1 } :=
  ⟨by rfl, by decide, by decide⟩

/-- Claim C2 (amended): for every U32 payload whose kernel-reported fields
(Hash, Link, Divisor, InDev, Pcnt) are zero-valued or empty and whose
Police and Actions sub-schemas are absent (their codecs are outside the
shown sources), with ClassID and Flags fitting 32 bits, the selector
well-formed when present (fields in range, declared NKeys equal to the
number of keys), and the mark well-formed when present, unmarshalU32
applied to the output of marshalU32 reconstructs the original payload
exactly and reports no error. -/
theorem u32_roundtrip_amended (u : U32)
    (hHash : u.Hash = 0) (hLink : u.Link = 0) (hDiv : u.Divisor = 0)
    (hInDev : u.InDev = []) (hPcnt : u.Pcnt = 0) (hPolice : u.Police = none)
    (hAct : u.Actions = none)
    (hClass : u.ClassID < 4294967296) (hFlags : u.Flags < 4294967296)
    (hSel : ∀ s, u.Sel = some s → U32SelWF s)
    (hMark : ∀ m, u.Mark = some m → U32MarkWF m) :
    ∀ b : Bytes, marshalU32 (some u) = .ok b → unmarshalU32 b u32Zero = (u, none) := by
  intro b hb
  rw [marshalU32_attrs u hPolice hAct] at hb
  injection hb with hb'
  subst hb'
  have henc : ∀ x ∈ selAttrs u.Sel ++ markAttrs u.Mark ++ classAttrs u.ClassID ++
      flagAttrs u.Flags, AttrEncOK x :=
    encok_append (encok_append (encok_append (selAttrs_encok _ hSel)
      (markAttrs_encok _)) (classAttrs_encok _)) (flagAttrs_encok _)
  simp only [unmarshalU32, decodeAttrs_encodeAttrs _ henc]
  have hassoc : selAttrs u.Sel ++ markAttrs u.Mark ++ classAttrs u.ClassID ++
      flagAttrs u.Flags
      = selAttrs u.Sel ++ (markAttrs u.Mark ++ (classAttrs u.ClassID ++
        (flagAttrs u.Flags ++ []))) := by simp
  rw [hassoc, u32Attrs_selAttrs _ hSel, u32Attrs_markAttrs _ hMark,
    u32Attrs_classAttrs _ hClass, u32Attrs_flagAttrs _ hFlags]
  obtain ⟨cid, hsh, lk, dv, sel, indev, pc, mk, fl, po, ac⟩ := u
  dsimp only at hHash hLink hDiv hInDev hPcnt hPolice hAct hClass hFlags hSel hMark ⊢
  subst hHash hLink hDiv hInDev hPcnt hPolice hAct
  rcases sel with _ | s <;> rcases mk with _ | m <;>
    by_cases hc : cid = 0 <;> by_cases hf : fl = 0 <;>
    simp [u32Attrs, u32Zero, hc, hf]

/-- A concrete U32 payload exercising every marshalled field: nonzero
ClassID and Flags, the C8 selector present, a mark present. -/
def u32W : U32 :=
  { ClassID := 5, Hash := 0, Link := 0, Divisor := 0, Sel := some selC8,
    InDev := [], Pcnt := 0, Mark := some ⟨1, 2, 3⟩, Flags := 7, Police := none,
    Actions := none }

/-- Witness for the amended C2 at the concrete payload u32W. -/
theorem u32_roundtrip_amended_witness :
    unmarshalU32 ((marshalU32 (some u32W)).toOption.getD []) u32Zero = (u32W, none) :=
  u32_roundtrip_amended u32W rfl rfl rfl rfl rfl rfl rfl (by decide) (by decide)
    (by intro s hs; simp only [u32W] at hs; rw [Option.some_inj] at hs
        subst hs; decide)
    (by intro m hm; simp only [u32W] at hm; rw [Option.some_inj] at hm
        subst hm; decide)
    ((marshalU32 (some u32W)).toOption.getD []) (by rfl)
